import Mathlib

set_option maxHeartbeats 1000000

/-
Verification development for the rawdirt repository (a Next.js RAW-photo
browser).  Each section shallowly embeds one unit of the TypeScript source:

  * rawProcessor.ts            (RGBA normalization of decoded images)
  * page.tsx fetchFiles / handleNavigateToPage (grand-total reconciliation)
  * api/metadata/index/route.ts (index read, single-flight write queue, merge)
  * api/metadata/batch-update/route.ts (batch merge)
  * api/s3/list route          (full-bucket scan cache)
  * the zustand store          (pending-change sync lifecycle)
  * RawWorkerPool              (concurrent job pool as a command-step machine)

Definitions are transcribed from the source; theorems settle the spec claims.
-/

namespace Rawdirt

/-! ### rawProcessor.ts: RGBA normalization (processRawFile lines 85-102, 168-181) -/

/-- Decoded image as returned by LibRaw imageData(): pixel byte buffer plus
dimensions and number of color components.  Bytes are modelled as Nat. -/
structure DecodedImage where
  width : Nat
  height : Nat
  colors : Nat
  data : List Nat
deriving Repr, DecidableEq

/-- Reads decodedImage.data[j].  A JavaScript out-of-range read yields
undefined, and storing undefined into a Uint8ClampedArray clamps it to 0. -/
def DecodedImage.byte (img : DecodedImage) (j : Nat) : Nat :=
  (img.data[j]?).getD 0

/-- Reported component count of the result (rawProcessor.ts line 179:
colors === 3 ? 4 : colors). -/
def reportedColors (c : Nat) : Nat := if c = 3 then 4 else c

/-- Embeds processRawFile lines 85-102: colors = 4 keeps the buffer; colors = 3
expands RGB to RGBA (out[4i+k] := data[3i+k] for k < 3 and out[4i+3] := 255,
rendered as a map over the 4n output positions, which the loop fills exactly
once each); any other component count throws.  The second component of the
result is the colors value reported on the returned imageData. -/
def processImageData (img : DecodedImage) : Except String (List Nat × Nat) :=
  if img.colors = 4 then
    .ok (img.data, reportedColors img.colors)
  else if img.colors = 3 then
    let n := img.width * img.height
    .ok ((List.range (4 * n)).map (fun j =>
      if j % 4 = 3 then 255 else img.byte (3 * (j / 4) + j % 4)),
      reportedColors img.colors)
  else
    .error ("Unsupported image color components: " ++ toString img.colors)

/-! ### page.tsx: grand-total reconciliation (fetchFiles lines 89-108,
handleNavigateToPage lines 238-241) -/

/-- Zustand store action setGrandTotalRawFiles: an unconditional overwrite of
the stored value (store, line setGrandTotalRawFiles). -/
def setGrandTotalRawFiles (_stored total : Nat) : Nat := total

/-- Grand-total update performed by fetchFiles: when the response carries a
truthy, positive grandTotalRawFiles it overwrites the stored value; afterwards
the stored value is raised to the number of currently loaded files if it is
smaller.  reported = none models an absent/undefined field. -/
def applyFetchFilesGrandTotal (stored : Nat) (reported : Option Nat) (loaded : Nat) : Nat :=
  let afterReport :=
    match reported with
    | some t => if t ≠ 0 ∧ t > 0 then setGrandTotalRawFiles stored t else stored
    | none => stored
  if afterReport < loaded then setGrandTotalRawFiles afterReport loaded else afterReport

/-- Grand-total update performed by handleNavigateToPage: any truthy reported
total overwrites the stored value; there is no floor at the loaded count. -/
def applyNavigateGrandTotal (stored : Nat) (reported : Option Nat) : Nat :=
  match reported with
  | some t => if t ≠ 0 then setGrandTotalRawFiles stored t else stored
  | none => stored

/-! ### JavaScript values and objects, for the metadata-index merge rules -/

/-- JavaScript values appearing in metadata records.  undefined and null are
distinct; a string list stands for a JSON array such as tags. -/
inductive JsVal where
  | undef
  | null
  | boolean (b : Bool)
  | num (n : Int)
  | str (s : String)
  | strList (l : List String)
deriving Repr, DecidableEq

/-- JavaScript truthiness: undefined, null, false, 0 and the empty string are
falsy; arrays are always truthy. -/
def JsVal.truthy : JsVal → Bool
  | .undef => false
  | .null => false
  | .boolean b => b
  | .num n => n != 0
  | .str s => s != ""
  | .strList _ => true

/-- typeof v === the string type. -/
def JsVal.isString : JsVal → Bool
  | .str _ => true
  | _ => false

/-- A JavaScript object as an entry list (Object.entries order); keys are
unique in any object produced by JSON parsing. -/
abbrev JsObj := List (String × JsVal)

/-- Object field read o[k]: none models an absent key. -/
def objGet : JsObj → String → Option JsVal
  | [], _ => none
  | (k0, v0) :: rest, k => if k0 == k then some v0 else objGet rest k

/-- Object field write o[k] = v: replaces the binding of k in place, or
appends it when the key is absent. -/
def objSet (o : JsObj) (k : String) (v : JsVal) : JsObj :=
  match o with
  | [] => [(k, v)]
  | (k0, v0) :: rest => if k0 == k then (k, v) :: rest else (k0, v0) :: objSet rest k v

/-- The keys of an object, in entry order. -/
def objKeys : JsObj → List String
  | [] => []
  | (k0, _) :: rest => k0 :: objKeys rest

/-! ### api/metadata/index/route.ts POST: single-key merge
(performUpdate lines 180-232) -/

/-- The date normalization applied to one key of storableMetadata: when the
incoming value is truthy and not already a string it is replaced by a date
string; conv abstracts new Date(v).toISOString().  The else-branch on a
truthy string value only validates and logs, changing nothing. -/
def dateFix (conv : JsVal → JsVal) (key : String) (o : JsObj) : JsObj :=
  match objGet o key with
  | some v => if v.truthy && !v.isString then objSet o key (conv v) else o
  | none => o

/-- performUpdate lines 180-205: storableMetadata = { ...metadata }, with the
exifDate fix applied first and the s3LastModified fix applied second. -/
def storableOf (conv : JsVal → JsVal) (metadata : JsObj) : JsObj :=
  dateFix conv "s3LastModified" (dateFix conv "exifDate" metadata)

/-- One iteration of the Object.entries(storableMetadata).forEach loop of
performUpdate lines 215-221: a defined value overwrites, an undefined value is
skipped and the existing field is preserved. -/
def mergeStep (acc : JsObj) (kv : String × JsVal) : JsObj :=
  if kv.2 = .undef then acc else objSet acc kv.1 kv.2

/-- performUpdate lines 208-221: updatedMetadata = { ...existingMetadata },
then the loop above runs over every entry of the update. -/
def mergeDefined (existing update : JsObj) : JsObj :=
  update.foldl mergeStep existing

/-- The merged record stored by the single-key POST path:
indexData.files[fileKey] = updatedMetadata. -/
def performUpdateMerge (conv : JsVal → JsVal) (existing metadata : JsObj) : JsObj :=
  mergeDefined existing (storableOf conv metadata)

/-! ### api/metadata/batch-update/route.ts POST: batch merge (lines 86-151) -/

/-- Batch route lines 94-133: cleanMetadata is built from the entries of the
incoming fileMetadata, skipping undefined values; a truthy exifDate or
s3LastModified is converted to a date string (convB abstracts the try/catch
around new Date(value).toISOString() and the String(value) fallback); the
thumbnailDataUrl branch and the final else both copy the value unchanged. -/
def cleanStep (convB : JsVal → JsVal) (acc : JsObj) (kv : String × JsVal) : JsObj :=
  if kv.2 = .undef then acc
  else if (kv.1 == "exifDate" || kv.1 == "s3LastModified") && kv.2.truthy then
    objSet acc kv.1 (convB kv.2)
  else objSet acc kv.1 kv.2

/-- cleanMetadata is accumulated from the empty object by the loop above. -/
def cleanMetadataOf (convB : JsVal → JsVal) (fileMetadata : JsObj) : JsObj :=
  fileMetadata.foldl (cleanStep convB) []

/-- Batch route lines 135-139: when cleanMetadata.thumbnailDataUrl is falsy
(absent, null, or an empty string) and the existing record has a truthy
thumbnailDataUrl, the existing thumbnail is written into cleanMetadata. -/
def cleanThumbFix (existing clean : JsObj) : JsObj :=
  if !((objGet clean "thumbnailDataUrl").getD .undef).truthy
      && ((objGet existing "thumbnailDataUrl").getD .undef).truthy then
    objSet clean "thumbnailDataUrl" ((objGet existing "thumbnailDataUrl").getD .undef)
  else clean

/-- cleanMetadata after the loop and the thumbnail preservation check. -/
def cleanWithThumb (convB : JsVal → JsVal) (existing fileMetadata : JsObj) : JsObj :=
  cleanThumbFix existing (cleanMetadataOf convB fileMetadata)

/-- The object spread { ...a, ...b }: every entry of b is written over a. -/
def spreadMerge (a b : JsObj) : JsObj :=
  b.foldl (fun acc kv => objSet acc kv.1 kv.2) a

/-- Batch route lines 141-145: indexData.files[fileKey] =
{ ...existingMetadata, ...cleanMetadata }. -/
def batchMergeOne (convB : JsVal → JsVal) (existing fileMetadata : JsObj) : JsObj :=
  spreadMerge existing (cleanWithThumb convB existing fileMetadata)

/-! ### RawWorkerPool: the client-side worker pool, embedded as a
deterministic step machine over pool states.  The JS event loop serializes
the pool's methods and the .then/.catch continuations attached in
processNextFile; a run is a sequence of such atomic steps, with the
nondeterministic choices — which in-flight job settles next, and whether it
resolves or throws — supplied by the command list. -/

/-- A queued job: its file key, and whether it was queued through addFiles
(whose resolve/reject wrappers push into this.results / this.errors and call
the completion handler) or through processFile (whose resolve/reject settle
the caller's promise). -/
structure Job where
  key : Nat
  viaAdd : Bool
deriving Repr, DecidableEq

/-- Observable events of the pool.  batchResolved records, as a ghost
snapshot, the queue length and active-worker count at the moment
allTasksResolve fires, together with the length of this.results passed to it;
batchStarted marks a processAllQueued call that created a fresh batch. -/
inductive PEv where
  | jobResolved (key : Nat)
  | jobRejected (key : Nat)
  | workerComplete (w : Nat) (key : Nat) (failed : Bool)
  | completionNotified (key : Nat) (failed : Bool)
  | batchStarted
  | batchResolved (results : Nat) (queueLen : Nat) (active : Int)
  | batchRejectedStop
deriving Repr, DecidableEq

/-- The pool's mutable fields (pool class lines 50-80), plus the in-flight
job list (started, unsettled processInMainThread calls), a ghost list of the
keys of jobs actually started, and the ghost event trace.  activeWorkers is
an Int because `this.activeWorkers--` runs unconditionally in continuations
and can drive the count negative after stopProcessing resets it.
batchOpen models allTasksResolve/allTasksReject being non-null; promiseSet
models allTasksPromise being non-null (they can differ: processAllQueued
assigns allTasksPromise only after its executor has run). -/
structure Pool where
  maxWorkers : Nat
  activeWorkers : Int
  fileQueue : List Job
  availableWorkers : List Nat
  fileToWorker : List (Nat × Nat)
  activeTasks : List Nat
  isProcessing : Bool
  batchOpen : Bool
  promiseSet : Bool
  resultsCount : Nat
  errorsCount : Nat
  inFlight : List (Job × Nat)
  started : List Nat
  events : List PEv
deriving Repr, DecidableEq

/-- The constructor (lines 82-88): counts zeroed, available workers
0, ..., maxWorkers-1. -/
def poolInit (m : Nat) : Pool :=
  { maxWorkers := m
    activeWorkers := 0
    fileQueue := []
    availableWorkers := List.range m
    fileToWorker := []
    activeTasks := []
    isProcessing := false
    batchOpen := false
    promiseSet := false
    resultsCount := 0
    errorsCount := 0
    inFlight := []
    started := []
    events := [] }

/-- finishAllTasks (lines 220-230): clears isProcessing; when a resolver is
present, resolves the batch promise with this.results and nulls the
resolver, the rejecter and the promise. -/
def finishAllTasks (s : Pool) : Pool :=
  if s.batchOpen then
    { s with
      isProcessing := false
      events := s.events
        ++ [PEv.batchResolved s.resultsCount s.fileQueue.length s.activeWorkers]
      batchOpen := false
      promiseSet := false }
  else { s with isProcessing := false }

/-- processNextFile (lines 233-267 for the synchronous part): an empty queue
triggers the batch-completion check; otherwise a job is started only when the
active count is below maxWorkers and a worker id is available, shifting both
the queue and the available-worker list, mapping the file to the worker,
incrementing the active count and registering the active task.  Starting a
job attaches its continuation; the job joins the in-flight list. -/
def processNextFile (s : Pool) : Pool :=
  match s.fileQueue with
  | [] =>
    if s.isProcessing = true ∧ s.activeWorkers = 0 then finishAllTasks s else s
  | j :: q =>
    if (s.maxWorkers : Int) ≤ s.activeWorkers then s
    else
      match s.availableWorkers with
      | [] => s
      | w :: avail =>
        { s with
          fileQueue := q
          availableWorkers := avail
          fileToWorker := s.fileToWorker.filter (fun p => p.1 ≠ j.key) ++ [(j.key, w)]
          activeWorkers := s.activeWorkers + 1
          activeTasks := s.activeTasks ++ [j.key]
          inFlight := s.inFlight ++ [(j, w)]
          started := s.started ++ [j.key] }

/-- The synchronous prefix of a .then/.catch continuation (lines 269-328
up to the recursive processNextFile call): remove the active task, push the
worker id back, delete the file-to-worker mapping, emit
onWorkerComplete(workerId, key, error?), settle the job's own promise (for
addFiles jobs the wrapper also pushes into results or errors and notifies the
completion handler), and decrement the active count. -/
def settleCore (s : Pool) (j : Job) (w : Nat) (ok : Bool) : Pool :=
  { s with
    inFlight := s.inFlight.erase (j, w)
    activeTasks := s.activeTasks.erase j.key
    availableWorkers := s.availableWorkers ++ [w]
    fileToWorker := s.fileToWorker.filter (fun p => p.1 ≠ j.key)
    resultsCount := if ok ∧ j.viaAdd then s.resultsCount + 1 else s.resultsCount
    errorsCount := if ¬ok ∧ j.viaAdd then s.errorsCount + 1 else s.errorsCount
    activeWorkers := s.activeWorkers - 1
    events := s.events
      ++ [PEv.workerComplete w j.key (!ok),
          if ok then PEv.jobResolved j.key else PEv.jobRejected j.key]
      ++ (if j.viaAdd then [PEv.completionNotified j.key (!ok)] else []) }

/-- The batch-completion check at the end of a continuation (lines 293-296
and 324-327). -/
def settleFinish (s : Pool) : Pool :=
  if s.isProcessing = true ∧ s.activeWorkers = 0 ∧ s.fileQueue = [] then
    finishAllTasks s
  else s

/-- A whole continuation run: synchronous mutations, then the recursive
processNextFile call, then the batch-completion check. -/
def settleRun (s : Pool) (j : Job) (w : Nat) (ok : Bool) : Pool :=
  settleFinish (processNextFile (settleCore s j w ok))

/-- processAllQueued (lines 180-217): an existing allTasksPromise is returned
unchanged; otherwise the executor runs synchronously — resolver and rejecter
stored, isProcessing set, results and errors reset, min(maxWorkers, queue
length) processNextFile calls, and an immediate finishAllTasks when the queue
is empty and no worker is active — and only then is the new promise assigned
to this.allTasksPromise (even when the executor already resolved and nulled
it, which leaves a stale settled promise behind). -/
def paqBegin (s : Pool) : Pool :=
  { s with
    batchOpen := true
    isProcessing := true
    resultsCount := 0
    errorsCount := 0
    events := s.events ++ [PEv.batchStarted] }

def paqStartWorkers (s : Pool) : Pool :=
  (List.range (min s.maxWorkers s.fileQueue.length)).foldl
    (fun st _ => processNextFile st) s

def paqFinishCheck (s : Pool) : Pool :=
  if s.fileQueue = [] ∧ s.activeWorkers = 0 then finishAllTasks s else s

def markPromiseSet (s : Pool) : Pool := { s with promiseSet := true }

def processAllQueued (s : Pool) : Pool :=
  if s.promiseSet then s
  else markPromiseSet (paqFinishCheck (paqStartWorkers (paqBegin s)))

/-- processFile (lines 104-113): push the job with the caller's resolve and
reject, then try to process. -/
def processFile (s : Pool) (key : Nat) : Pool :=
  processNextFile { s with fileQueue := s.fileQueue ++ [⟨key, false⟩] }

/-- addFiles (lines 154-177): an empty list only logs; otherwise all jobs are
pushed with wrappers feeding results/errors and the completion handler.  No
processing is started. -/
def addFiles (s : Pool) (keys : List Nat) : Pool :=
  if keys.isEmpty then s
  else { s with fileQueue := s.fileQueue ++ keys.map (fun k => ⟨k, true⟩) }

/-- stopProcessing (lines 661-705): voids the queue, resets the active count,
refills availableWorkers with 0..maxWorkers-1, clears the file-to-worker map
and the active tasks, clears isProcessing, and — when a rejecter is
outstanding — rejects the batch promise with the user-cancellation error and
nulls resolver, rejecter and promise.  In-flight asynchronous work is not
(and cannot be) cancelled: the in-flight list is untouched. -/
def stopProcessing (s : Pool) : Pool :=
  if s.batchOpen then
    { s with
      fileQueue := []
      activeWorkers := 0
      availableWorkers := List.range s.maxWorkers
      fileToWorker := []
      activeTasks := []
      isProcessing := false
      events := s.events ++ [PEv.batchRejectedStop]
      batchOpen := false
      promiseSet := false }
  else
    { s with
      fileQueue := []
      activeWorkers := 0
      availableWorkers := List.range s.maxWorkers
      fileToWorker := []
      activeTasks := []
      isProcessing := false }

/-- The pool's atomic steps. -/
inductive PCmd where
  | processFile (key : Nat)
  | addFiles (keys : List Nat)
  | processAllQueued
  | stop
  | settle (j : Job) (w : Nat) (ok : Bool)
deriving Repr, DecidableEq

/-- One step: a settle command fires only for a job currently in flight
(otherwise there is no pending continuation and the command is a no-op). -/
def poolStep (s : Pool) : PCmd → Pool
  | .processFile k => processFile s k
  | .addFiles ks => addFiles s ks
  | .processAllQueued => processAllQueued s
  | .stop => stopProcessing s
  | .settle j w ok => if (j, w) ∈ s.inFlight then settleRun s j w ok else s

/-- A pool run from a fresh pool of m slots. -/
def poolRun (m : Nat) (cmds : List PCmd) : Pool :=
  cmds.foldl poolStep (poolInit m)

/-- Command lists that never call stopProcessing. -/
abbrev NoStop (cmds : List PCmd) : Prop := ∀ c ∈ cmds, c ≠ PCmd.stop

/-- Whether a command is a job settlement. -/
def isSettle : PCmd → Bool
  | .settle _ _ _ => true
  | _ => false

/-- Command lists consisting only of job settlements. -/
abbrev SettleOnly (cmds : List PCmd) : Prop := ∀ c ∈ cmds, isSettle c = true

/-- Number of individual job settlements (resolutions plus rejections) in a
trace. -/
def settledCount (evs : List PEv) : Nat :=
  evs.countP fun e =>
    match e with
    | .jobResolved _ => true
    | .jobRejected _ => true
    | _ => false

/-- Whether the batch promise has resolved in a trace. -/
def hasBatchResolved (evs : List PEv) : Bool :=
  evs.any fun e =>
    match e with
    | .batchResolved _ _ _ => true
    | _ => false

/-- Counts of batch lifecycle events in a trace. -/
def countBatchStarted (evs : List PEv) : Nat :=
  evs.countP fun e =>
    match e with
    | .batchStarted => true
    | _ => false

def countBatchResolved (evs : List PEv) : Nat :=
  evs.countP fun e =>
    match e with
    | .batchResolved _ _ _ => true
    | _ => false

def countBatchRejected (evs : List PEv) : Nat :=
  evs.countP fun e =>
    match e with
    | .batchRejectedStop => true
    | _ => false

/-- The job key an event reports on, if any. -/
def evJobKey : PEv → Option Nat
  | .jobResolved k => some k
  | .jobRejected k => some k
  | .workerComplete _ k _ => some k
  | .completionNotified k _ => some k
  | .batchStarted => none
  | .batchResolved _ _ _ => none
  | .batchRejectedStop => none

/-- The 10-jobs-into-3-slots scenario: ten files added, then a batch run
started; three jobs are in flight and seven are queued. -/
def scenarioPool : Pool :=
  poolRun 3 [.addFiles [0, 1, 2, 3, 4, 5, 6, 7, 8, 9], .processAllQueued]

/-- One complete settlement schedule for the scenario: each settle frees a
slot and the freed worker immediately picks up the next queued job; job 3
(the fourth) throws. -/
def drainCmds : List PCmd :=
  [.settle ⟨0, true⟩ 0 true, .settle ⟨1, true⟩ 1 true, .settle ⟨2, true⟩ 2 true,
   .settle ⟨3, true⟩ 0 false, .settle ⟨4, true⟩ 1 true, .settle ⟨5, true⟩ 2 true,
   .settle ⟨6, true⟩ 0 true, .settle ⟨7, true⟩ 1 true, .settle ⟨8, true⟩ 2 true,
   .settle ⟨9, true⟩ 0 true]

/-- Every batch resolution in the trace was emitted at an instant with an
empty queue and a zero active-worker count (read off the ghost snapshot the
event carries). -/
abbrev GoodEvents (evs : List PEv) : Prop :=
  ∀ e ∈ evs, ∀ (n ql : Nat) (a : Int), e = PEv.batchResolved n ql a → ql = 0 ∧ a = 0

/-- Batch settlement accounting: settled batches (resolved or stop-rejected)
plus the currently open one, if any, are exactly the batches started — so
each batch settles exactly once. -/
abbrev CountEq (s : Pool) : Prop :=
  countBatchResolved s.events + countBatchRejected s.events
    + (if s.batchOpen then 1 else 0) = countBatchStarted s.events

/-- CountEq together with the tie between the stored promise and the stored
resolver: whenever allTasksPromise is null, so is allTasksResolve. -/
abbrev BatchInv (s : Pool) : Prop :=
  (s.promiseSet = false → s.batchOpen = false) ∧ CountEq s

/-- Basic slot accounting that holds along every stop-free run. -/
abbrev PoolInv (m : Nat) (s : Pool) : Prop :=
  s.maxWorkers = m ∧
  s.activeWorkers = (s.inFlight.length : Int) ∧
  s.availableWorkers.length + s.inFlight.length = m

/-- The draining invariant of the 10-jobs-into-3-slots scenario. -/
abbrev DrainInv (s : Pool) : Prop :=
  s.maxWorkers = 3 ∧
  s.activeWorkers = (s.inFlight.length : Int) ∧
  s.availableWorkers.length + s.inFlight.length = 3 ∧
  settledCount s.events + s.fileQueue.length + s.inFlight.length = 10 ∧
  (s.fileQueue ≠ [] → s.inFlight.length = 3) ∧
  ((s.inFlight ≠ [] ∨ s.fileQueue ≠ []) → s.isProcessing = true ∧ s.batchOpen = true) ∧
  (s.inFlight = [] → s.fileQueue = [] ∧ hasBatchResolved s.events = true ∧
    settledCount s.events = 10)

/-- Trace soundness for job-level events: every event that reports on a job
names a job that was actually started (handed to a worker), and every
in-flight job was started.  In particular no slot-completion event is ever
emitted for a job that was queued but never started. -/
abbrev StartedInv (s : Pool) : Prop :=
  (∀ e ∈ s.events, ∀ k, evJobKey e = some k → k ∈ s.started) ∧
  (∀ p ∈ s.inFlight, p.1.key ∈ s.started)

/-! ### api/metadata/index/route.ts: the module-level write queue
(indexUpdateInProgress / updateQueue lines 26-28, processUpdateQueue lines
38-54, POST lines 255-258) -/

/-- Trace events of the write queue: a queued update function starting — which
is when it performs its getIndexFile re-read — and settling. -/
inductive QEv where
  | readStart (w : Nat)
  | settled (w : Nat)
deriving Repr, DecidableEq

/-- The module state of the route: the mutex flag and the queue, plus an
in-flight list (the update functions started and not yet settled; the code
keeps at most one, which is proved, not assumed) and two ghost fields
recording submissions and the event trace. -/
structure IdxQueueState where
  indexUpdateInProgress : Bool
  updateQueue : List Nat
  inFlight : List Nat
  submitted : List Nat
  log : List QEv
deriving Repr, DecidableEq

def idxQueueInit : IdxQueueState := ⟨false, [], [], [], []⟩

/-- processUpdateQueue lines 38-45: returns unless the flag is clear and the
queue is nonempty; otherwise sets the flag and shifts and awaits the front
update function.  There is no await between the check (line 39) and the
assignment (line 41), so check-and-set is atomic in the JS event loop. -/
def idxKick (s : IdxQueueState) : IdxQueueState :=
  if s.indexUpdateInProgress || s.updateQueue.isEmpty then s
  else
    match s.updateQueue with
    | [] => s
    | w :: rest =>
      { s with indexUpdateInProgress := true, updateQueue := rest,
               inFlight := s.inFlight ++ [w], log := s.log ++ [.readStart w] }

/-- POST lines 255-258: updateQueue.push(performUpdate); the subsequent
randomBackoff yields to the event loop before processUpdateQueue is called, so
push and kick are separate steps. -/
def idxPush (s : IdxQueueState) (w : Nat) : IdxQueueState :=
  { s with updateQueue := s.updateQueue ++ [w], submitted := s.submitted ++ [w] }

/-- The awaited updateFn settles; the finally block (lines 47-53) clears the
flag and, when the queue is nonempty, immediately re-enters
processUpdateQueue, which shifts and starts the next update function. -/
def idxSettle (s : IdxQueueState) : IdxQueueState :=
  match s.inFlight with
  | [] => s
  | w :: rest =>
    idxKick { s with inFlight := rest, indexUpdateInProgress := false,
                     log := s.log ++ [.settled w] }

/-- The events the route's module state can experience. -/
inductive IdxCmd where
  | push (w : Nat)
  | kick
  | settle
deriving Repr, DecidableEq

def idxStep (s : IdxQueueState) : IdxCmd → IdxQueueState
  | .push w => idxPush s w
  | .kick => idxKick s
  | .settle => idxSettle s

def idxRun (cmds : List IdxCmd) : IdxQueueState :=
  cmds.foldl idxStep idxQueueInit

/-- The writes applied so far, in settlement order, read off the trace. -/
def appliedOf (log : List QEv) : List Nat :=
  log.filterMap fun e =>
    match e with
    | .settled w => some w
    | .readStart _ => none

/-- The strictly alternating trace read w1, settled w1, read w2, settled w2,
... of a sequence of writes each of which re-reads only after its predecessor
has settled. -/
def readSettleTrace : List Nat → List QEv
  | [] => []
  | w :: ws => QEv.readStart w :: QEv.settled w :: readSettleTrace ws

/-- The single-flight FIFO invariant of the write queue. -/
def IdxInv (s : IdxQueueState) : Prop :=
  s.inFlight.length = (if s.indexUpdateInProgress then 1 else 0) ∧
  appliedOf s.log ++ s.inFlight ++ s.updateQueue = s.submitted ∧
  s.log = readSettleTrace (appliedOf s.log) ++ s.inFlight.map QEv.readStart

/-! ### The whole server process: the queue above together with
api/metadata/batch-update/route.ts, whose POST handler (lines 15-193) runs
its own GetObject → merge → PutObject cycle on the same metadata/index.json
(INDEX_FILE_KEY, line 6) and contains no reference to indexUpdateInProgress,
updateQueue or processUpdateQueue. -/

/-- Process-level state: the module state of api/metadata/index/route.ts,
plus the batch-update POST handlers currently between sending their
GetObject (batch-update route lines 44-50) and the settlement of their
PutObject send (line 171) — i.e. the batch read-merge-write cycles in
flight. -/
structure ProcState where
  route : IdxQueueState
  batchInFlight : List Nat
deriving Repr, DecidableEq

def procInit : ProcState := ⟨idxQueueInit, []⟩

/-- Steps the process can take: the three single-key route events, a
batch-update handler beginning its read-merge-write cycle (its GetObject is
sent unconditionally — the handler never consults the queue or its mutex),
and the oldest batch cycle's concluding PutObject settling. -/
inductive ProcCmd where
  | push (w : Nat)
  | kick
  | settle
  | batchBegin (b : Nat)
  | batchEnd
deriving Repr, DecidableEq

def procStep (s : ProcState) : ProcCmd → ProcState
  | .push w => { s with route := idxPush s.route w }
  | .kick => { s with route := idxKick s.route }
  | .settle => { s with route := idxSettle s.route }
  | .batchBegin b => { s with batchInFlight := s.batchInFlight ++ [b] }
  | .batchEnd => { s with batchInFlight := s.batchInFlight.drop 1 }

def procRun (cmds : List ProcCmd) : ProcState :=
  cmds.foldl procStep procInit

/-- Read-merge-write cycles on metadata/index.json currently in flight
anywhere in the process: the queued single-key one (if any) plus the batch
ones. -/
def cyclesInFlight (s : ProcState) : Nat :=
  s.route.inFlight.length + s.batchInFlight.length

/-! ### zustand store (useStore): pending changes and the sync lifecycle
(updateFileMetadata lines 218-308, syncChangesToS3 lines 324-379) -/

/-- Client sync state: the pendingChanges buffer (changes modelled by id in
merge order), the isSyncing flag, the snapshot {...pendingChanges} taken by
the in-flight sync, the sync error and schedule fields, and a ghost list of
change ids included in a confirmed successful remote write. -/
structure SyncState where
  pending : List Nat
  isSyncing : Bool
  snapshot : List Nat
  syncError : Option String
  nextSyncTime : Nat
  lastSyncTime : Nat
  synced : List Nat
deriving Repr, DecidableEq

def syncInit : SyncState := ⟨[], false, [], none, 0, 0, []⟩

/-- updateFileMetadata: the clean updates are always merged into
pendingChanges (lines 259-264); each local mutation is a fresh change id. -/
def syncUpdate (s : SyncState) (c : Nat) : SyncState :=
  { s with pending := s.pending ++ [c] }

/-- syncChangesToS3 entry, lines 327-337: returns when already syncing or no
pending changes; otherwise sets isSyncing, clears syncError, and snapshots
changesToSync = { ...pendingChanges } as the batch request body. -/
def syncStart (s : SyncState) : SyncState :=
  if s.isSyncing || s.pending.isEmpty then s
  else { s with isSyncing := true, syncError := none, snapshot := s.pending }

/-- The batch fetch resolves OK, lines 355-364: pendingChanges is reset to {}
in its entirety — whatever it contains at completion time — and the snapshot
becomes part of the confirmed remote write. -/
def syncOk (s : SyncState) (now : Nat) : SyncState :=
  if s.isSyncing then
    { s with isSyncing := false, lastSyncTime := now, pending := [],
             nextSyncTime := 0, synced := s.synced ++ s.snapshot, snapshot := [] }
  else s

/-- The batch fetch fails, lines 366-378: pendingChanges is untouched, the
error message is recorded in syncError, and nextSyncTime schedules a retry
30000 ms out. -/
def syncFail (s : SyncState) (now : Nat) (msg : String) : SyncState :=
  if s.isSyncing then
    { s with isSyncing := false, syncError := some msg,
             nextSyncTime := now + 30000, snapshot := [] }
  else s

/-- The events the client sync state can experience. -/
inductive SyncCmd where
  | update (c : Nat)
  | syncStart
  | syncOk (now : Nat)
  | syncFail (now : Nat) (msg : String)
deriving Repr, DecidableEq

def syncStep (s : SyncState) : SyncCmd → SyncState
  | .update c => syncUpdate s c
  | .syncStart => syncStart s
  | .syncOk now => syncOk s now
  | .syncFail now msg => syncFail s now msg

def syncRun (cmds : List SyncCmd) : SyncState :=
  cmds.foldl syncStep syncInit

/-! ### api/metadata/index/route.ts: reading the index
(getIndexFile lines 56-101, GET lines 139-147) -/

/-- The metadata index document. -/
structure IndexDoc where
  version : Nat
  files : JsObj
deriving Repr, DecidableEq

/-- The default structure, returned when the file does not exist or an error
occurs (line 100). -/
def emptyIndexDoc : IndexDoc := { version := 1, files := [] }

/-- Outcome of the S3 GetObject send plus body transformToString. -/
inductive S3GetResult where
  | ok (body : Option String)
  | errNoSuchKey
  | errOther (name : String)
deriving Repr, DecidableEq

/-- Models s3Client.send and the body read: store failures are thrown;
body = none models a falsy (empty/undefined) body string. -/
def s3GetBody : S3GetResult → Except String (Option String)
  | .ok body => .ok body
  | .errNoSuchKey => .error "NoSuchKey"
  | .errOther name => .error name

/-- The inner try of getIndexFile, lines 70-91: a truthy body must parse and a
parse failure is rethrown; a falsy body falls through with no result. -/
def parseBody (parse : String → Option IndexDoc) : Option String → Except String (Option IndexDoc)
  | some s =>
    match parse s with
    | some doc => .ok (some doc)
    | none => .error "Failed to parse index file"
  | none => .ok none

/-- getIndexFile lines 56-101: every thrown error — NoSuchKey, any other store
failure, or a parse error — is caught by the outer catch, logged, and the
default structure is returned; only a successfully parsed body is returned
as-is.  The function itself never throws. -/
def getIndexFile (parse : String → Option IndexDoc) (r : S3GetResult) : IndexDoc :=
  match s3GetBody r >>= parseBody parse with
  | .ok (some doc) => doc
  | .ok none => emptyIndexDoc
  | .error _ => emptyIndexDoc

/-- GET /api/metadata/index lines 139-147: answers 200 with getIndexFile's
result; the 500 catch branch is dead code because getIndexFile is total. -/
def getRoute (parse : String → Option IndexDoc) (r : S3GetResult) : Nat × IndexDoc :=
  (200, getIndexFile parse r)

/-! ### api/s3/list route: full bucket scan and its module-level cache
(scanEntireBucket lines 478-519, cache lines 352-356) -/

/-- The RAW extension allowlist (list route line 348). -/
def RAW_EXTENSIONS : List String :=
  [".rw2", ".cr2", ".nef", ".arw", ".dng", ".orf", ".raf", ".pef", ".srw", ".raw"]

/-- Safety limit on scanned objects (list route line 349). -/
def MAX_FILES_TO_SCAN : Nat := 5000

/-- item.Key.toLowerCase() ends with one of the RAW extensions. -/
def isRawKey (key : String) : Bool :=
  RAW_EXTENSIONS.any (fun ext => key.toLower.endsWith ext)

/-- One ListObjectsV2 response: object keys, IsTruncated, and whether a
NextContinuationToken is present. -/
structure ScanPage where
  contents : List String
  truncated : Bool
  hasNext : Bool
deriving Repr, DecidableEq

/-- The module-level scan cache (list route lines 352-356). -/
structure ScanCache where
  cachedRawFiles : List String
  cachedTotalRawFiles : Nat
  hasScannedBucket : Bool
deriving Repr, DecidableEq

/-- The scan loop of scanEntireBucket lines 487-511: successive S3 responses
are consumed, matching RAW keys accumulate in the local allFiles, and the
count of scanned objects enforces MAX_FILES_TO_SCAN; a failing send throws out
of the loop.  The response stream is a list; exhausting it ends the loop. -/
def scanGo : List (Except String ScanPage) → List String → Nat → Except String (List String)
  | [], acc, _ => .ok acc
  | .error e :: _, _, _ => .error e
  | .ok p :: rest, acc, scanned =>
    let acc2 := acc ++ p.contents.filter isRawKey
    let scanned2 := scanned + p.contents.length
    if p.truncated && p.hasNext && scanned2 < MAX_FILES_TO_SCAN then
      scanGo rest acc2 scanned2
    else .ok acc2

/-- scanEntireBucket lines 478-519: runs the loop, and only after the loop has
completed fully replaces all three cache variables (lines 513-516); when the
loop throws, the error propagates to the caller and the cache is untouched. -/
def scanEntireBucket (pages : List (Except String ScanPage)) (cache : ScanCache) :
    Except String Unit × ScanCache :=
  match scanGo pages [] 0 with
  | .error e => (.error e, cache)
  | .ok files =>
    (.ok (), { cachedRawFiles := files, cachedTotalRawFiles := files.length,
               hasScannedBucket := true })

end Rawdirt

namespace Rawdirt

/-! ### Theorems for C10 and C9 -/

/-- C10: for every successfully decoded image, a 3-channel source of n pixels
yields a 4n-byte output whose every 4th byte is 255 and whose RGB bytes are
bit-identical to the source, reported with colors = 4; a 4-channel source is
passed through with colors = 4; and a component count other than 3 or 4 makes
processing fail with an error. -/
theorem C10_rgba_normalization :
    (∀ img : DecodedImage, img.colors = 3 →
      img.data.length = 3 * (img.width * img.height) →
      ∃ out, processImageData img = .ok (out, 4) ∧
        out.length = 4 * (img.width * img.height) ∧
        (∀ i < img.width * img.height, ∀ k < 3,
          out[4 * i + k]? = img.data[3 * i + k]?) ∧
        (∀ i < img.width * img.height, out[4 * i + 3]? = some 255)) ∧
    (∀ img : DecodedImage, img.colors = 4 →
      processImageData img = .ok (img.data, 4)) ∧
    (∀ img : DecodedImage, img.colors ≠ 3 → img.colors ≠ 4 →
      processImageData img =
        .error ("Unsupported image color components: " ++ toString img.colors)) := by
  refine ⟨?_, ?_, ?_⟩
  · intro img h3 hlen
    have h4 : img.colors ≠ 4 := by omega
    refine ⟨(List.range (4 * (img.width * img.height))).map (fun j =>
      if j % 4 = 3 then 255 else img.byte (3 * (j / 4) + j % 4)), ?_, ?_, ?_, ?_⟩
    · simp [processImageData, h3, h4, reportedColors]
    · simp
    · intro i hi k hk
      have hj : 4 * i + k < 4 * (img.width * img.height) := by omega
      have hmod : (4 * i + k) % 4 = k := by omega
      have hdiv : (4 * i + k) / 4 = i := by omega
      have hk3 : k ≠ 3 := by omega
      have hidx : 3 * i + k < img.data.length := by
        rw [hlen]; omega
      rw [List.getElem?_map, List.getElem?_range hj]
      simp only [Option.map_some', hmod, hdiv, if_neg hk3, DecodedImage.byte]
      rw [List.getElem?_eq_getElem hidx]
      simp
    · intro i hi
      have hj : 4 * i + 3 < 4 * (img.width * img.height) := by omega
      have hmod : (4 * i + 3) % 4 = 3 := by omega
      rw [List.getElem?_map, List.getElem?_range hj]
      simp [hmod]
  · intro img h4
    have h3 : img.colors ≠ 3 := by omega
    simp [processImageData, h4, reportedColors, h3]
  · intro img h3 h4
    simp [processImageData, h3, h4]

/-- Witness for C10 on a concrete 2-pixel RGB image. -/
theorem C10_rgba_normalization_witness :
    ∃ out, processImageData ⟨2, 1, 3, [10, 20, 30, 40, 50, 60]⟩ = .ok (out, 4) ∧
      out.length = 4 * (2 * 1) ∧
      (∀ i < 2 * 1, ∀ k < 3,
        out[4 * i + k]? = ([10, 20, 30, 40, 50, 60] : List Nat)[3 * i + k]?) ∧
      (∀ i < 2 * 1, out[4 * i + 3]? = some 255) :=
  C10_rgba_normalization.1 ⟨2, 1, 3, [10, 20, 30, 40, 50, 60]⟩ rfl rfl

/-- C9 counterexample: the store holds a grand total of 100; a response
reporting 50 (with 10 files loaded) is merged by fetchFiles and the stored
value drops to 50 — it is not left unchanged as the claim requires. -/
theorem C9_counterexample :
    applyFetchFilesGrandTotal 100 (some 50) 10 = 50 ∧
    applyFetchFilesGrandTotal 100 (some 50) 10 ≠ 100 := by
  constructor <;> decide

/-- C9 (amended): fetchFiles overwrites the stored grand total with any
positive reported total, even a smaller one (the stored value can decrease on
a stale response), and then raises it to the number of currently loaded files
if smaller; so after fetchFiles the stored value is max(reported, loaded) when
a positive total is reported and max(previous, loaded) otherwise.
handleNavigateToPage overwrites with any nonzero reported total and applies no
loaded-count floor. -/
theorem C9_grand_total_update :
    (∀ stored t loaded, 0 < t →
      applyFetchFilesGrandTotal stored (some t) loaded = max t loaded) ∧
    (∀ stored loaded,
      applyFetchFilesGrandTotal stored none loaded = max stored loaded) ∧
    (∀ stored reported loaded,
      loaded ≤ applyFetchFilesGrandTotal stored reported loaded) ∧
    (∀ stored t, t ≠ 0 → applyNavigateGrandTotal stored (some t) = t) ∧
    (∀ stored, applyNavigateGrandTotal stored none = stored) := by
  refine ⟨?_, ?_, ?_, ?_, ?_⟩
  · intro stored t loaded ht
    simp only [applyFetchFilesGrandTotal, setGrandTotalRawFiles, Nat.max_def]
    split_ifs <;> omega
  · intro stored loaded
    simp only [applyFetchFilesGrandTotal, setGrandTotalRawFiles, Nat.max_def]
    split_ifs <;> omega
  · intro stored reported loaded
    cases reported with
    | none =>
      simp only [applyFetchFilesGrandTotal, setGrandTotalRawFiles]
      split_ifs <;> omega
    | some t =>
      simp only [applyFetchFilesGrandTotal, setGrandTotalRawFiles]
      split_ifs <;> omega
  · intro stored t ht
    simp [applyNavigateGrandTotal, setGrandTotalRawFiles, ht]
  · intro stored
    simp [applyNavigateGrandTotal]

/-- Witness for C9_grand_total_update at concrete inputs. -/
theorem C9_grand_total_update_witness :
    applyFetchFilesGrandTotal 7 (some 20) 5 = max 20 5 ∧
    applyNavigateGrandTotal 7 (some 20) = 20 :=
  ⟨C9_grand_total_update.1 7 20 5 (by decide),
   C9_grand_total_update.2.2.2.1 7 20 (by decide)⟩

/-! ### Shared lemmas on the worker pool -/

theorem finishAllTasks_cases (s : Pool) :
    (s.batchOpen = true ∧ finishAllTasks s = { s with
        isProcessing := false
        events := s.events
          ++ [PEv.batchResolved s.resultsCount s.fileQueue.length s.activeWorkers]
        batchOpen := false
        promiseSet := false }) ∨
    (s.batchOpen = false ∧ finishAllTasks s = { s with isProcessing := false }) := by
  by_cases h : s.batchOpen = true
  · exact Or.inl ⟨h, by unfold finishAllTasks; rw [if_pos h]⟩
  · exact Or.inr ⟨by simpa using h, by unfold finishAllTasks; rw [if_neg h]⟩

theorem processNextFile_cases (s : Pool) :
    (s.fileQueue = [] ∧ s.isProcessing = true ∧ s.activeWorkers = 0 ∧
      processNextFile s = finishAllTasks s) ∨
    (s.fileQueue = [] ∧ ¬(s.isProcessing = true ∧ s.activeWorkers = 0) ∧
      processNextFile s = s) ∨
    (∃ j q, s.fileQueue = j :: q ∧ (s.maxWorkers : Int) ≤ s.activeWorkers ∧
      processNextFile s = s) ∨
    (∃ j q, s.fileQueue = j :: q ∧ ¬((s.maxWorkers : Int) ≤ s.activeWorkers) ∧
      s.availableWorkers = [] ∧ processNextFile s = s) ∨
    (∃ j q w avail, s.fileQueue = j :: q ∧ ¬((s.maxWorkers : Int) ≤ s.activeWorkers) ∧
      s.availableWorkers = w :: avail ∧
      processNextFile s = { s with
        fileQueue := q
        availableWorkers := avail
        fileToWorker := s.fileToWorker.filter (fun p => p.1 ≠ j.key) ++ [(j.key, w)]
        activeWorkers := s.activeWorkers + 1
        activeTasks := s.activeTasks ++ [j.key]
        inFlight := s.inFlight ++ [(j, w)]
        started := s.started ++ [j.key] }) := by
  cases hq : s.fileQueue with
  | nil =>
    by_cases hc : s.isProcessing = true ∧ s.activeWorkers = 0
    · exact Or.inl ⟨rfl, hc.1, hc.2, by unfold processNextFile; rw [hq, if_pos hc]⟩
    · exact Or.inr (Or.inl ⟨rfl, hc, by unfold processNextFile; rw [hq, if_neg hc]⟩)
  | cons j q =>
    by_cases hge : (s.maxWorkers : Int) ≤ s.activeWorkers
    · refine Or.inr (Or.inr (Or.inl ⟨j, q, rfl, hge, ?_⟩))
      simp only [processNextFile, hq]
      rw [if_pos hge]
    · cases hav : s.availableWorkers with
      | nil =>
        refine Or.inr (Or.inr (Or.inr (Or.inl ⟨j, q, rfl, hge, rfl, ?_⟩)))
        simp only [processNextFile, hq]
        rw [if_neg hge, hav]
      | cons w avail =>
        refine Or.inr (Or.inr (Or.inr (Or.inr ⟨j, q, w, avail, rfl, hge, rfl, ?_⟩)))
        simp only [processNextFile, hq]
        rw [if_neg hge, hav]

theorem finishAllTasks_maxWorkers (s : Pool) :
    (finishAllTasks s).maxWorkers = s.maxWorkers := by
  unfold finishAllTasks; split <;> rfl

theorem finishAllTasks_slots (s : Pool) :
    (finishAllTasks s).activeWorkers = s.activeWorkers ∧
    (finishAllTasks s).inFlight = s.inFlight ∧
    (finishAllTasks s).availableWorkers = s.availableWorkers ∧
    (finishAllTasks s).fileQueue = s.fileQueue ∧
    (finishAllTasks s).started = s.started := by
  unfold finishAllTasks; split <;> exact ⟨rfl, rfl, rfl, rfl, rfl⟩

theorem processNextFile_maxWorkers (s : Pool) :
    (processNextFile s).maxWorkers = s.maxWorkers := by
  rcases processNextFile_cases s with ⟨_, _, _, he⟩ | ⟨_, _, he⟩ |
    ⟨j, q, _, _, he⟩ | ⟨j, q, _, _, _, he⟩ | ⟨j, q, w, avail, _, _, _, he⟩ <;>
    rw [he]
  exact finishAllTasks_maxWorkers s

theorem foldl_pnf_pred (P : Pool → Prop) (hP : ∀ t, P t → P (processNextFile t))
    (l : List Nat) (s : Pool) (h : P s) :
    P (l.foldl (fun st _ => processNextFile st) s) := by
  induction l generalizing s with
  | nil => simpa using h
  | cons a l ih => exact ih (processNextFile s) (hP s h)

theorem paqStartWorkers_pred (P : Pool → Prop) (hP : ∀ t, P t → P (processNextFile t))
    (s : Pool) (h : P s) : P (paqStartWorkers s) :=
  foldl_pnf_pred P hP _ s h

theorem poolStep_maxWorkers (s : Pool) (c : PCmd) :
    (poolStep s c).maxWorkers = s.maxWorkers := by
  cases c with
  | processFile k =>
    show (processNextFile _).maxWorkers = s.maxWorkers
    rw [processNextFile_maxWorkers]
  | addFiles ks =>
    simp only [poolStep]
    unfold addFiles; split <;> rfl
  | processAllQueued =>
    simp only [poolStep]
    unfold processAllQueued
    split
    · rfl
    · show (markPromiseSet (paqFinishCheck (paqStartWorkers (paqBegin s)))).maxWorkers
          = s.maxWorkers
      have h1 : ∀ t : Pool, (paqFinishCheck t).maxWorkers = t.maxWorkers := by
        intro t; unfold paqFinishCheck; split
        · exact finishAllTasks_maxWorkers t
        · rfl
      have h2 : (paqStartWorkers (paqBegin s)).maxWorkers = (paqBegin s).maxWorkers := by
        have := paqStartWorkers_pred
          (fun t => t.maxWorkers = (paqBegin s).maxWorkers)
          (fun t ht => by
            show (processNextFile t).maxWorkers = (paqBegin s).maxWorkers
            rw [processNextFile_maxWorkers]; exact ht)
          (paqBegin s) rfl
        exact this
      show (paqFinishCheck (paqStartWorkers (paqBegin s))).maxWorkers = s.maxWorkers
      rw [h1, h2]
      rfl
  | stop =>
    simp only [poolStep]
    unfold stopProcessing; split <;> rfl
  | settle j w ok =>
    simp only [poolStep]
    split
    · show (settleFinish (processNextFile (settleCore s j w ok))).maxWorkers = s.maxWorkers
      have h1 : ∀ t : Pool, (settleFinish t).maxWorkers = t.maxWorkers := by
        intro t; unfold settleFinish; split
        · exact finishAllTasks_maxWorkers t
        · rfl
      rw [h1, processNextFile_maxWorkers]
      rfl
    · rfl

theorem finishAllTasks_poolInv (m : Nat) (s : Pool) (h : PoolInv m s) :
    PoolInv m (finishAllTasks s) := by
  obtain ⟨hs1, hs2, hs3, hs4, hs5⟩ := finishAllTasks_slots s
  exact ⟨by rw [finishAllTasks_maxWorkers]; exact h.1,
    by rw [hs1, hs2]; exact h.2.1,
    by rw [hs2, hs3]; exact h.2.2⟩

theorem processNextFile_poolInv (m : Nat) (s : Pool) (h : PoolInv m s) :
    PoolInv m (processNextFile s) := by
  obtain ⟨h1, h2, h3⟩ := h
  rcases processNextFile_cases s with ⟨_, _, _, he⟩ | ⟨_, _, he⟩ |
    ⟨j, q, _, _, he⟩ | ⟨j, q, _, _, _, he⟩ | ⟨j, q, w, avail, hq, hlt, hav, he⟩
  · rw [he]; exact finishAllTasks_poolInv m s ⟨h1, h2, h3⟩
  · rw [he]; exact ⟨h1, h2, h3⟩
  · rw [he]; exact ⟨h1, h2, h3⟩
  · rw [he]; exact ⟨h1, h2, h3⟩
  · rw [he]
    refine ⟨h1, ?_, ?_⟩
    · show s.activeWorkers + 1 = ((s.inFlight ++ [(j, w)]).length : Int)
      rw [List.length_append]
      simp only [List.length_cons, List.length_nil]
      push_cast
      omega
    · show avail.length + (s.inFlight ++ [(j, w)]).length = m
      have hlen : s.availableWorkers.length = avail.length + 1 := by rw [hav]; rfl
      rw [List.length_append]
      simp only [List.length_cons, List.length_nil]
      omega

theorem settleFinish_poolInv (m : Nat) (s : Pool) (h : PoolInv m s) :
    PoolInv m (settleFinish s) := by
  unfold settleFinish
  split
  · exact finishAllTasks_poolInv m s h
  · exact h

theorem settleCore_poolInv (m : Nat) (s : Pool) (j : Job) (w : Nat) (ok : Bool)
    (hmem : (j, w) ∈ s.inFlight) (h : PoolInv m s) :
    PoolInv m (settleCore s j w ok) := by
  obtain ⟨h1, h2, h3⟩ := h
  have hlen : (s.inFlight.erase (j, w)).length = s.inFlight.length - 1 :=
    List.length_erase_of_mem hmem
  have hpos : 0 < s.inFlight.length := List.length_pos_of_mem hmem
  refine ⟨h1, ?_, ?_⟩
  · show s.activeWorkers - 1 = ((s.inFlight.erase (j, w)).length : Int)
    rw [hlen]
    omega
  · show (s.availableWorkers ++ [w]).length + (s.inFlight.erase (j, w)).length = m
    rw [List.length_append, hlen]
    simp only [List.length_cons, List.length_nil]
    omega

theorem poolStep_poolInv (m : Nat) (s : Pool) (c : PCmd) (hc : c ≠ PCmd.stop)
    (h : PoolInv m s) : PoolInv m (poolStep s c) := by
  cases c with
  | processFile k =>
    show PoolInv m (processNextFile _)
    exact processNextFile_poolInv m _ ⟨h.1, h.2.1, h.2.2⟩
  | addFiles ks =>
    simp only [poolStep]
    unfold addFiles
    split
    · exact h
    · exact ⟨h.1, h.2.1, h.2.2⟩
  | processAllQueued =>
    simp only [poolStep]
    unfold processAllQueued
    split
    · exact h
    · have hb : PoolInv m (paqBegin s) := ⟨h.1, h.2.1, h.2.2⟩
      have hw : PoolInv m (paqStartWorkers (paqBegin s)) :=
        paqStartWorkers_pred (PoolInv m) (processNextFile_poolInv m) _ hb
      have hf : PoolInv m (paqFinishCheck (paqStartWorkers (paqBegin s))) := by
        unfold paqFinishCheck
        split
        · exact finishAllTasks_poolInv m _ hw
        · exact hw
      exact ⟨hf.1, hf.2.1, hf.2.2⟩
  | stop => exact absurd rfl hc
  | settle j w ok =>
    simp only [poolStep]
    split
    · rename_i hmem
      exact settleFinish_poolInv m _
        (processNextFile_poolInv m _ (settleCore_poolInv m s j w ok hmem h))
    · exact h

theorem foldl_poolStep_pred (P : Pool → Prop) (cmds : List PCmd)
    (hP : ∀ s c, c ∈ cmds → P s → P (poolStep s c)) (s : Pool) (h : P s) :
    P (cmds.foldl poolStep s) := by
  induction cmds generalizing s with
  | nil => simpa using h
  | cons c rest ih =>
    exact ih (fun t c2 hc2 ht => hP t c2 (by simp [hc2]) ht)
      (poolStep s c) (hP s c (by simp) h)

theorem poolRun_poolInv (m : Nat) (cmds : List PCmd) (hns : NoStop cmds) :
    PoolInv m (poolRun m cmds) :=
  foldl_poolStep_pred (PoolInv m) cmds
    (fun s c hc h => poolStep_poolInv m s c (hns c hc) h)
    (poolInit m) ⟨rfl, rfl, by simp [poolInit]⟩

/-! ### Draining lemmas for the 10-jobs-into-3-slots scenario -/

theorem settledCount_append (a b : List PEv) :
    settledCount (a ++ b) = settledCount a + settledCount b := by
  simp [settledCount, List.countP_append]

theorem hasBatchResolved_append (a b : List PEv) :
    hasBatchResolved (a ++ b) = (hasBatchResolved a || hasBatchResolved b) := by
  simp [hasBatchResolved, List.any_append]

theorem settledCount_batchResolved (a b2 : Nat) (c : Int) :
    settledCount [PEv.batchResolved a b2 c] = 0 := by
  simp [settledCount]

theorem hasBatchResolved_single (a b2 : Nat) (c : Int) :
    hasBatchResolved [PEv.batchResolved a b2 c] = true := by
  simp [hasBatchResolved]

theorem settleCore_events_eq (s : Pool) (j : Job) (w : Nat) (ok : Bool) :
    (settleCore s j w ok).events = s.events
      ++ [PEv.workerComplete w j.key (!ok),
          if ok then PEv.jobResolved j.key else PEv.jobRejected j.key]
      ++ (if j.viaAdd then [PEv.completionNotified j.key (!ok)] else []) := rfl

theorem settleCore_settled (s : Pool) (j : Job) (w : Nat) (ok : Bool) :
    settledCount (settleCore s j w ok).events = settledCount s.events + 1 := by
  rw [settleCore_events_eq, settledCount_append, settledCount_append]
  cases ok <;> cases hv : j.viaAdd <;> simp [settledCount, hv]

theorem settleCore_hasResolved (s : Pool) (j : Job) (w : Nat) (ok : Bool) :
    hasBatchResolved (settleCore s j w ok).events = hasBatchResolved s.events := by
  rw [settleCore_events_eq, hasBatchResolved_append, hasBatchResolved_append]
  cases ok <;> cases hv : j.viaAdd <;> simp [hasBatchResolved, hv]

theorem settleFinish_id (s : Pool)
    (h : ¬(s.isProcessing = true ∧ s.activeWorkers = 0 ∧ s.fileQueue = [])) :
    settleFinish s = s := by
  unfold settleFinish; rw [if_neg h]

theorem settle_drainInv (s : Pool) (j : Job) (w : Nat) (ok : Bool) (h : DrainInv s) :
    DrainInv (poolStep s (.settle j w ok)) := by
  simp only [poolStep]
  split
  case isFalse => exact h
  case isTrue hmem =>
    obtain ⟨d1, d2, d3, d4, d5, d6, d7⟩ := h
    have hpos : 0 < s.inFlight.length := List.length_pos_of_mem hmem
    have hproc : s.isProcessing = true ∧ s.batchOpen = true :=
      d6 (Or.inl (List.ne_nil_of_mem hmem))
    have hlen : (s.inFlight.erase (j, w)).length = s.inFlight.length - 1 :=
      List.length_erase_of_mem hmem
    have hts : settledCount (settleCore s j w ok).events = settledCount s.events + 1 :=
      settleCore_settled s j w ok
    have hth : hasBatchResolved (settleCore s j w ok).events = hasBatchResolved s.events :=
      settleCore_hasResolved s j w ok
    show DrainInv (settleFinish (processNextFile (settleCore s j w ok)))
    cases hq : s.fileQueue with
    | cons jh qt =>
      have hq3 : s.inFlight.length = 3 := d5 (by simp [hq])
      have havail : s.availableWorkers = [] := by
        have hl : s.availableWorkers.length = 0 := by omega
        exact List.length_eq_zero.mp hl
      have htq : (settleCore s j w ok).fileQueue = jh :: qt := hq
      have htv : (settleCore s j w ok).availableWorkers = [w] := by
        show s.availableWorkers ++ [w] = [w]
        rw [havail]; rfl
      rcases processNextFile_cases (settleCore s j w ok) with
        ⟨htq2, _, _, _⟩ | ⟨htq2, _, _⟩ | ⟨j2, q2, htq2, hge, _⟩ |
        ⟨j2, q2, htq2, _, hav2, _⟩ | ⟨j2, q2, w2, av2, htq2, hge, hav2, he⟩
      · rw [htq] at htq2; exact absurd htq2 (by simp)
      · rw [htq] at htq2; exact absurd htq2 (by simp)
      · exfalso
        have hma : (settleCore s j w ok).maxWorkers = s.maxWorkers := rfl
        have haa : (settleCore s j w ok).activeWorkers = s.activeWorkers - 1 := rfl
        rw [hma, haa, d1, d2, hq3] at hge
        omega
      · rw [htv] at hav2; exact absurd hav2 (by simp)
      · rw [htq] at htq2
        have hj2 : j2 = jh := by injection htq2 with hh _; exact hh.symm
        have hqq2 : q2 = qt := by injection htq2 with _ hh; exact hh.symm
        rw [htv] at hav2
        have hw2 : w2 = w := by injection hav2 with hh _; exact hh.symm
        have hav2eq : av2 = [] := by injection hav2 with _ hh; exact hh.symm
        rw [hj2, hqq2, hw2, hav2eq] at he
        rw [he]
        rw [settleFinish_id _ (by
          intro hcon
          have hx : (settleCore s j w ok).activeWorkers + 1 = 0 := hcon.2.1
          have hy : (settleCore s j w ok).activeWorkers = s.activeWorkers - 1 := rfl
          rw [hy, d2, hq3] at hx
          omega)]
        refine ⟨d1, ?_, ?_, ?_, ?_, ?_, ?_⟩
        · show (settleCore s j w ok).activeWorkers + 1
            = (((settleCore s j w ok).inFlight ++ [(jh, w)]).length : Int)
          show s.activeWorkers - 1 + 1 = ((s.inFlight.erase (j, w) ++ [(jh, w)]).length : Int)
          rw [List.length_append, hlen]
          simp only [List.length_cons, List.length_nil]
          omega
        · show ([] : List Nat).length + (s.inFlight.erase (j, w) ++ [(jh, w)]).length = 3
          rw [List.length_append, hlen]
          simp only [List.length_nil, List.length_cons]
          omega
        · show settledCount (settleCore s j w ok).events + qt.length
            + (s.inFlight.erase (j, w) ++ [(jh, w)]).length = 10
          rw [hts, List.length_append, hlen]
          rw [hq] at d4
          simp only [List.length_cons] at d4
          simp only [List.length_cons, List.length_nil]
          omega
        · intro _
          show (s.inFlight.erase (j, w) ++ [(jh, w)]).length = 3
          rw [List.length_append, hlen]
          simp only [List.length_cons, List.length_nil]
          omega
        · intro _
          exact ⟨hproc.1, hproc.2⟩
        · intro habs
          have hz : (settleCore s j w ok).inFlight ++ [(jh, w)] = [] := habs
          simp at hz
    | nil =>
      have htq : (settleCore s j w ok).fileQueue = [] := hq
      by_cases hone : s.inFlight.length = 1
      · rcases processNextFile_cases (settleCore s j w ok) with
          ⟨_, _, _, he⟩ | ⟨_, hn, _⟩ | ⟨j2, q2, htq2, _, _⟩ |
          ⟨j2, q2, htq2, _, _, _⟩ | ⟨j2, q2, w2, av2, htq2, _, _, _⟩
        · rw [he]
          rcases finishAllTasks_cases (settleCore s j w ok) with ⟨hbo, hfe⟩ | ⟨hbo, _⟩
          · rw [hfe]
            rw [settleFinish_id _ (by intro hcon; exact absurd hcon.1 (by simp))]
            have hifl : (settleCore s j w ok).inFlight = [] := by
              show s.inFlight.erase (j, w) = []
              exact List.length_eq_zero.mp (by omega)
            have h10 : settledCount s.events + 1 = 10 := by
              rw [hq] at d4
              simp only [List.length_nil] at d4
              omega
            refine ⟨d1, ?_, ?_, ?_, ?_, ?_, ?_⟩
            · show (settleCore s j w ok).activeWorkers
                = ((settleCore s j w ok).inFlight.length : Int)
              rw [hifl]
              show s.activeWorkers - 1 = ((0 : Nat) : Int)
              omega
            · show (s.availableWorkers ++ [w]).length
                + (settleCore s j w ok).inFlight.length = 3
              rw [hifl, List.length_append]
              simp only [List.length_cons, List.length_nil]
              omega
            · show settledCount ((settleCore s j w ok).events
                  ++ [PEv.batchResolved (settleCore s j w ok).resultsCount
                      (settleCore s j w ok).fileQueue.length
                      (settleCore s j w ok).activeWorkers])
                + (settleCore s j w ok).fileQueue.length
                + (settleCore s j w ok).inFlight.length = 10
              rw [settledCount_append, hts, settledCount_batchResolved, htq, hifl]
              simp only [List.length_nil]
              omega
            · intro habs
              exact absurd htq habs
            · intro hor
              exfalso
              rcases hor with hx | hx
              · exact hx hifl
              · exact hx htq
            · intro _
              refine ⟨htq, ?_, ?_⟩
              · show hasBatchResolved ((settleCore s j w ok).events
                    ++ [PEv.batchResolved (settleCore s j w ok).resultsCount
                        (settleCore s j w ok).fileQueue.length
                        (settleCore s j w ok).activeWorkers]) = true
                rw [hasBatchResolved_append, hasBatchResolved_single]
                simp
              · show settledCount ((settleCore s j w ok).events
                    ++ [PEv.batchResolved (settleCore s j w ok).resultsCount
                        (settleCore s j w ok).fileQueue.length
                        (settleCore s j w ok).activeWorkers]) = 10
                rw [settledCount_append, hts, settledCount_batchResolved]
                omega
          · exact absurd hproc.2 (by
              have hbo2 : s.batchOpen = false := hbo
              simp [hbo2])
        · exfalso
          apply hn
          refine ⟨hproc.1, ?_⟩
          show s.activeWorkers - 1 = 0
          omega
        · rw [htq] at htq2; exact absurd htq2 (by simp)
        · rw [htq] at htq2; exact absurd htq2 (by simp)
        · rw [htq] at htq2; exact absurd htq2 (by simp)
      · have htwo : 2 ≤ s.inFlight.length := by omega
        rcases processNextFile_cases (settleCore s j w ok) with
          ⟨_, _, ha, _⟩ | ⟨_, _, he⟩ | ⟨j2, q2, htq2, _, _⟩ |
          ⟨j2, q2, htq2, _, _, _⟩ | ⟨j2, q2, w2, av2, htq2, _, _, _⟩
        · exfalso
          have hx : s.activeWorkers - 1 = 0 := ha
          omega
        · rw [he]
          rw [settleFinish_id _ (by
            intro hcon
            have hx : s.activeWorkers - 1 = 0 := hcon.2.1
            omega)]
          refine ⟨d1, ?_, ?_, ?_, ?_, ?_, ?_⟩
          · show s.activeWorkers - 1 = ((s.inFlight.erase (j, w)).length : Int)
            rw [hlen]
            omega
          · show (s.availableWorkers ++ [w]).length + (s.inFlight.erase (j, w)).length = 3
            rw [List.length_append, hlen]
            simp only [List.length_cons, List.length_nil]
            omega
          · show settledCount (settleCore s j w ok).events
              + (settleCore s j w ok).fileQueue.length
              + (s.inFlight.erase (j, w)).length = 10
            rw [hts, hlen, htq]
            rw [hq] at d4
            simp only [List.length_nil] at d4 ⊢
            omega
          · intro habs
            exact absurd htq habs
          · intro _
            exact ⟨hproc.1, hproc.2⟩
          · intro habs
            exfalso
            have hz : s.inFlight.erase (j, w) = [] := habs
            have hz2 : (s.inFlight.erase (j, w)).length = 0 := by rw [hz]; rfl
            omega
        · rw [htq] at htq2; exact absurd htq2 (by simp)
        · rw [htq] at htq2; exact absurd htq2 (by simp)
        · rw [htq] at htq2; exact absurd htq2 (by simp)

/-! ### Theorems for C2 (concurrency bound and scenario drain) -/

/-- C2: the concurrency limit maxWorkers is fixed at construction and no step
ever resizes it; on every stop-free run the number of in-flight jobs never
exceeds maxWorkers; and in the 10-jobs-into-3-slots scenario, along every
sequence of job settlements — each job free to resolve or throw, in any
order — at most 3 jobs are in flight at every instant, and whenever the pool
reaches a state with no job left in flight, all 10 jobs have settled and the
batch promise has resolved. -/
theorem C2_concurrency_bound :
    (∀ (m : Nat) (cmds : List PCmd), (poolRun m cmds).maxWorkers = m) ∧
    (∀ (m : Nat) (cmds : List PCmd), NoStop cmds →
      (poolRun m cmds).inFlight.length ≤ m) ∧
    (∀ cmds : List PCmd, SettleOnly cmds →
      (cmds.foldl poolStep scenarioPool).inFlight.length ≤ 3 ∧
      ((cmds.foldl poolStep scenarioPool).inFlight = [] →
        settledCount (cmds.foldl poolStep scenarioPool).events = 10 ∧
        hasBatchResolved (cmds.foldl poolStep scenarioPool).events = true)) := by
  refine ⟨?_, ?_, ?_⟩
  · intro m cmds
    exact foldl_poolStep_pred (fun t => t.maxWorkers = m) cmds
      (fun t c _ ht => by
        show (poolStep t c).maxWorkers = m
        rw [poolStep_maxWorkers]; exact ht)
      (poolInit m) rfl
  · intro m cmds hns
    have h := poolRun_poolInv m cmds hns
    have h3 := h.2.2
    omega
  · intro cmds hso
    have hinv : DrainInv (cmds.foldl poolStep scenarioPool) := by
      refine foldl_poolStep_pred DrainInv cmds ?_ scenarioPool (by decide)
      intro t c hc ht
      have hs := hso c hc
      cases c with
      | settle j w ok => exact settle_drainInv t j w ok ht
      | processFile k => simp [isSettle] at hs
      | addFiles ks => simp [isSettle] at hs
      | processAllQueued => simp [isSettle] at hs
      | stop => simp [isSettle] at hs
    refine ⟨?_, ?_⟩
    · have h3 := hinv.2.2.1
      omega
    · intro hifl
      have hfin := hinv.2.2.2.2.2.2 hifl
      exact ⟨hfin.2.2, hfin.2.1⟩

/-- Witness for C2: the concrete full drain of the scenario, with job 3
throwing; all ten jobs settle and the batch resolves. -/
theorem C2_concurrency_bound_witness :
    (drainCmds.foldl poolStep scenarioPool).inFlight = [] ∧
    settledCount (drainCmds.foldl poolStep scenarioPool).events = 10 ∧
    hasBatchResolved (drainCmds.foldl poolStep scenarioPool).events = true :=
  ⟨by decide,
   ((C2_concurrency_bound.2.2 drainCmds (by decide)).2 (by decide)).1,
   ((C2_concurrency_bound.2.2 drainCmds (by decide)).2 (by decide)).2⟩

/-! ### Batch lifecycle lemmas for C1 -/

theorem goodEvents_append (a b : List PEv) (ha : GoodEvents a) (hb : GoodEvents b) :
    GoodEvents (a ++ b) := by
  intro e he n ql x heq
  rcases List.mem_append.mp he with h | h
  · exact ha e h n ql x heq
  · exact hb e h n ql x heq

theorem finishAllTasks_batchOpen (s : Pool) : (finishAllTasks s).batchOpen = false := by
  rcases finishAllTasks_cases s with ⟨hbo, he⟩ | ⟨hbo, he⟩
  · rw [he]
  · rw [he]; exact hbo

theorem finishAllTasks_good (s : Pool) (hq : s.fileQueue = [])
    (ha : s.activeWorkers = 0) (h : GoodEvents s.events) :
    GoodEvents (finishAllTasks s).events := by
  rcases finishAllTasks_cases s with ⟨hbo, he⟩ | ⟨hbo, he⟩ <;> rw [he]
  · show GoodEvents (s.events
      ++ [PEv.batchResolved s.resultsCount s.fileQueue.length s.activeWorkers])
    apply goodEvents_append _ _ h
    intro e he2 n ql x heq
    subst heq
    simp at he2
    obtain ⟨h1, h2, h3⟩ := he2
    refine ⟨?_, ?_⟩
    · rw [h2, hq]; rfl
    · rw [h3, ha]
  · exact h

theorem processNextFile_good (s : Pool) (h : GoodEvents s.events) :
    GoodEvents (processNextFile s).events := by
  rcases processNextFile_cases s with ⟨hq, hp, ha, he⟩ | ⟨_, _, he⟩ |
    ⟨j, q, _, _, he⟩ | ⟨j, q, _, _, _, he⟩ | ⟨j, q, w, avail, _, _, _, he⟩ <;> rw [he]
  · exact finishAllTasks_good s hq ha h
  · exact h
  · exact h
  · exact h
  · exact h

theorem settleCore_good (s : Pool) (j : Job) (w : Nat) (ok : Bool)
    (h : GoodEvents s.events) : GoodEvents (settleCore s j w ok).events := by
  rw [settleCore_events_eq]
  apply goodEvents_append
  · apply goodEvents_append _ _ h
    intro e he n ql x heq
    subst heq
    cases ok <;> simp at he
  · intro e he n ql x heq
    subst heq
    cases hv : j.viaAdd <;> simp [hv] at he

theorem poolStep_good (s : Pool) (c : PCmd) (h : GoodEvents s.events) :
    GoodEvents (poolStep s c).events := by
  cases c with
  | processFile k =>
    show GoodEvents (processNextFile _).events
    exact processNextFile_good _ h
  | addFiles ks =>
    simp only [poolStep]
    unfold addFiles
    split
    · exact h
    · exact h
  | processAllQueued =>
    simp only [poolStep]
    unfold processAllQueued
    split
    · exact h
    · show GoodEvents (markPromiseSet (paqFinishCheck (paqStartWorkers (paqBegin s)))).events
      have h1 : GoodEvents (paqBegin s).events := by
        show GoodEvents (s.events ++ [PEv.batchStarted])
        apply goodEvents_append _ _ h
        intro e he n ql x heq
        subst heq
        simp at he
      have h2 : GoodEvents (paqStartWorkers (paqBegin s)).events :=
        paqStartWorkers_pred (fun t => GoodEvents t.events)
          (fun t ht => by
            show GoodEvents (processNextFile t).events
            exact processNextFile_good t ht) _ h1
      have h3 : GoodEvents (paqFinishCheck (paqStartWorkers (paqBegin s))).events := by
        unfold paqFinishCheck
        split
        · rename_i hcond
          exact finishAllTasks_good _ hcond.1 hcond.2 h2
        · exact h2
      exact h3
  | stop =>
    simp only [poolStep]
    unfold stopProcessing
    split
    · show GoodEvents (s.events ++ [PEv.batchRejectedStop])
      apply goodEvents_append _ _ h
      intro e he n ql x heq
      subst heq
      simp at he
    · exact h
  | settle j w ok =>
    simp only [poolStep]
    split
    · show GoodEvents (settleFinish (processNextFile (settleCore s j w ok))).events
      have h2 := processNextFile_good _ (settleCore_good s j w ok h)
      unfold settleFinish
      split
      · rename_i hcond
        exact finishAllTasks_good _ hcond.2.2 hcond.2.1 h2
      · exact h2
    · exact h

theorem countBatchResolved_append (a b : List PEv) :
    countBatchResolved (a ++ b) = countBatchResolved a + countBatchResolved b := by
  simp [countBatchResolved, List.countP_append]

theorem countBatchRejected_append (a b : List PEv) :
    countBatchRejected (a ++ b) = countBatchRejected a + countBatchRejected b := by
  simp [countBatchRejected, List.countP_append]

theorem countBatchStarted_append (a b : List PEv) :
    countBatchStarted (a ++ b) = countBatchStarted a + countBatchStarted b := by
  simp [countBatchStarted, List.countP_append]

theorem finishAllTasks_countEq (s : Pool) (h : CountEq s) : CountEq (finishAllTasks s) := by
  have hx : countBatchResolved s.events + countBatchRejected s.events
      + (if s.batchOpen then 1 else 0) = countBatchStarted s.events := h
  rcases finishAllTasks_cases s with ⟨hbo, he⟩ | ⟨hbo, he⟩
  · rw [hbo] at hx
    simp at hx
    rw [he]
    show countBatchResolved (s.events
        ++ [PEv.batchResolved s.resultsCount s.fileQueue.length s.activeWorkers])
      + countBatchRejected (s.events
        ++ [PEv.batchResolved s.resultsCount s.fileQueue.length s.activeWorkers])
      + 0
      = countBatchStarted (s.events
        ++ [PEv.batchResolved s.resultsCount s.fileQueue.length s.activeWorkers])
    rw [countBatchResolved_append, countBatchRejected_append, countBatchStarted_append]
    have c1 : countBatchResolved
        [PEv.batchResolved s.resultsCount s.fileQueue.length s.activeWorkers] = 1 := by
      simp [countBatchResolved]
    have c2 : countBatchRejected
        [PEv.batchResolved s.resultsCount s.fileQueue.length s.activeWorkers] = 0 := by
      simp [countBatchRejected]
    have c3 : countBatchStarted
        [PEv.batchResolved s.resultsCount s.fileQueue.length s.activeWorkers] = 0 := by
      simp [countBatchStarted]
    rw [c1, c2, c3]
    omega
  · rw [he]
    show countBatchResolved s.events + countBatchRejected s.events
      + (if s.batchOpen then 1 else 0) = countBatchStarted s.events
    exact hx

theorem processNextFile_countEq (s : Pool) (h : CountEq s) :
    CountEq (processNextFile s) := by
  rcases processNextFile_cases s with ⟨hq, hp, ha, he⟩ | ⟨_, _, he⟩ |
    ⟨j, q, _, _, he⟩ | ⟨j, q, _, _, _, he⟩ | ⟨j, q, w, avail, _, _, _, he⟩ <;> rw [he]
  · exact finishAllTasks_countEq s h
  · exact h
  · exact h
  · exact h
  · exact h

theorem settleCore_countEq (s : Pool) (j : Job) (w : Nat) (ok : Bool) (h : CountEq s) :
    CountEq (settleCore s j w ok) := by
  show countBatchResolved (settleCore s j w ok).events
    + countBatchRejected (settleCore s j w ok).events
    + (if s.batchOpen then 1 else 0)
    = countBatchStarted (settleCore s j w ok).events
  rw [settleCore_events_eq, countBatchResolved_append, countBatchResolved_append,
    countBatchRejected_append, countBatchRejected_append,
    countBatchStarted_append, countBatchStarted_append]
  have c1 : ∀ evs2 : List PEv, evs2 = [PEv.workerComplete w j.key (!ok),
      if ok then PEv.jobResolved j.key else PEv.jobRejected j.key] →
      countBatchResolved evs2 = 0 ∧ countBatchRejected evs2 = 0 ∧
      countBatchStarted evs2 = 0 := by
    intro evs2 hevs
    subst hevs
    cases ok <;>
      simp [countBatchResolved, countBatchRejected, countBatchStarted]
  have c2 : ∀ evs2 : List PEv,
      evs2 = (if j.viaAdd then [PEv.completionNotified j.key (!ok)] else []) →
      countBatchResolved evs2 = 0 ∧ countBatchRejected evs2 = 0 ∧
      countBatchStarted evs2 = 0 := by
    intro evs2 hevs
    subst hevs
    cases hv : j.viaAdd <;>
      simp [countBatchResolved, countBatchRejected, countBatchStarted]
  obtain ⟨a1, a2, a3⟩ := c1 _ rfl
  obtain ⟨b1, b2, b3⟩ := c2 _ rfl
  rw [a1, a2, a3, b1, b2, b3]
  have hx : countBatchResolved s.events + countBatchRejected s.events
      + (if s.batchOpen then 1 else 0) = countBatchStarted s.events := h
  simpa using hx

theorem poolStep_batchInv (s : Pool) (c : PCmd) (h : BatchInv s) :
    BatchInv (poolStep s c) := by
  have hfin : ∀ t : Pool, BatchInv t → BatchInv (finishAllTasks t) := by
    intro t ht
    exact ⟨fun _ => finishAllTasks_batchOpen t, finishAllTasks_countEq t ht.2⟩
  have hpnf : ∀ t : Pool, BatchInv t → BatchInv (processNextFile t) := by
    intro t ht
    rcases processNextFile_cases t with ⟨hq, hp, ha, he⟩ | ⟨_, _, he⟩ |
      ⟨j, q, _, _, he⟩ | ⟨j, q, _, _, _, he⟩ | ⟨j, q, w, avail, _, _, _, he⟩ <;> rw [he]
    · exact hfin t ht
    · exact ht
    · exact ht
    · exact ht
    · exact ⟨ht.1, ht.2⟩
  cases c with
  | processFile k =>
    show BatchInv (processNextFile _)
    exact hpnf _ ⟨h.1, h.2⟩
  | addFiles ks =>
    simp only [poolStep]
    unfold addFiles
    split
    · exact h
    · exact ⟨h.1, h.2⟩
  | processAllQueued =>
    simp only [poolStep]
    unfold processAllQueued
    split
    · exact h
    · rename_i hps
      have hps2 : s.promiseSet = false := by
        cases hx : s.promiseSet
        · rfl
        · exact absurd hx hps
      have hopen : s.batchOpen = false := h.1 hps2
      have hx : countBatchResolved s.events + countBatchRejected s.events
          + (if s.batchOpen then 1 else 0) = countBatchStarted s.events := h.2
      rw [hopen] at hx
      simp at hx
      have hb : CountEq (paqBegin s) := by
        show countBatchResolved (s.events ++ [PEv.batchStarted])
          + countBatchRejected (s.events ++ [PEv.batchStarted])
          + 1
          = countBatchStarted (s.events ++ [PEv.batchStarted])
        rw [countBatchResolved_append, countBatchRejected_append, countBatchStarted_append]
        have c1 : countBatchResolved [PEv.batchStarted] = 0 := by simp [countBatchResolved]
        have c2 : countBatchRejected [PEv.batchStarted] = 0 := by simp [countBatchRejected]
        have c3 : countBatchStarted [PEv.batchStarted] = 1 := by simp [countBatchStarted]
        rw [c1, c2, c3]
        omega
      have hw : CountEq (paqStartWorkers (paqBegin s)) :=
        paqStartWorkers_pred CountEq processNextFile_countEq _ hb
      have hf : CountEq (paqFinishCheck (paqStartWorkers (paqBegin s))) := by
        unfold paqFinishCheck
        split
        · exact finishAllTasks_countEq _ hw
        · exact hw
      exact ⟨fun hps3 => Bool.noConfusion hps3, hf⟩
  | stop =>
    simp only [poolStep]
    unfold stopProcessing
    split
    · rename_i hbo
      have hx : countBatchResolved s.events + countBatchRejected s.events
          + (if s.batchOpen then 1 else 0) = countBatchStarted s.events := h.2
      rw [hbo] at hx
      simp at hx
      refine ⟨fun _ => rfl, ?_⟩
      show countBatchResolved (s.events ++ [PEv.batchRejectedStop])
        + countBatchRejected (s.events ++ [PEv.batchRejectedStop])
        + 0
        = countBatchStarted (s.events ++ [PEv.batchRejectedStop])
      rw [countBatchResolved_append, countBatchRejected_append, countBatchStarted_append]
      have c1 : countBatchResolved [PEv.batchRejectedStop] = 0 := by simp [countBatchResolved]
      have c2 : countBatchRejected [PEv.batchRejectedStop] = 1 := by simp [countBatchRejected]
      have c3 : countBatchStarted [PEv.batchRejectedStop] = 0 := by simp [countBatchStarted]
      rw [c1, c2, c3]
      omega
    · rename_i hbo
      have hbo2 : s.batchOpen = false := by
        cases hx : s.batchOpen
        · rfl
        · exact absurd hx hbo
      exact ⟨fun _ => hbo2, h.2⟩
  | settle j w ok =>
    simp only [poolStep]
    split
    · show BatchInv (settleFinish (processNextFile (settleCore s j w ok)))
      have h1 : BatchInv (settleCore s j w ok) := ⟨h.1, settleCore_countEq s j w ok h.2⟩
      have h2 := hpnf _ h1
      unfold settleFinish
      split
      · exact hfin _ h2
      · exact h2
    · exact h

theorem processNextFile_events_mono (s : Pool) :
    ∃ tail, (processNextFile s).events = s.events ++ tail := by
  rcases processNextFile_cases s with ⟨_, _, _, he⟩ | ⟨_, _, he⟩ |
    ⟨j, q, _, _, he⟩ | ⟨j, q, _, _, _, he⟩ | ⟨j, q, w, avail, _, _, _, he⟩
  · rcases finishAllTasks_cases s with ⟨_, he2⟩ | ⟨_, he2⟩
    · exact ⟨[PEv.batchResolved s.resultsCount s.fileQueue.length s.activeWorkers],
        by rw [he, he2]⟩
    · exact ⟨[], by rw [he, he2]; simp⟩
  · exact ⟨[], by rw [he]; simp⟩
  · exact ⟨[], by rw [he]; simp⟩
  · exact ⟨[], by rw [he]; simp⟩
  · exact ⟨[], by rw [he]; simp⟩

theorem settleFinish_events_mono (s : Pool) :
    ∃ tail, (settleFinish s).events = s.events ++ tail := by
  unfold settleFinish
  split
  · rcases finishAllTasks_cases s with ⟨_, he2⟩ | ⟨_, he2⟩
    · exact ⟨[PEv.batchResolved s.resultsCount s.fileQueue.length s.activeWorkers],
        by rw [he2]⟩
    · exact ⟨[], by rw [he2]; simp⟩
  · exact ⟨[], by simp⟩

theorem settleRun_failure_isolation (m : Nat) (s : Pool) (j : Job) (w : Nat)
    (hmem : (j, w) ∈ s.inFlight) (hinv : PoolInv m s) :
    (∃ rest, (settleRun s j w false).events
        = s.events ++ [PEv.workerComplete w j.key true, PEv.jobRejected j.key] ++ rest) ∧
    (∀ (jh : Job) (qt : List Job), s.fileQueue = jh :: qt →
      (settleRun s j w false).started = s.started ++ [jh.key] ∧
      (settleRun s j w false).inFlight.length = s.inFlight.length) := by
  have hlen : (s.inFlight.erase (j, w)).length = s.inFlight.length - 1 :=
    List.length_erase_of_mem hmem
  have hpos : 0 < s.inFlight.length := List.length_pos_of_mem hmem
  constructor
  · obtain ⟨t1, ht1⟩ := processNextFile_events_mono (settleCore s j w false)
    obtain ⟨t2, ht2⟩ := settleFinish_events_mono (processNextFile (settleCore s j w false))
    refine ⟨(if j.viaAdd then [PEv.completionNotified j.key true] else []) ++ t1 ++ t2, ?_⟩
    show (settleFinish (processNextFile (settleCore s j w false))).events = _
    rw [ht2, ht1, settleCore_events_eq]
    simp
  · intro jh qt hq
    have hqc : (settleCore s j w false).fileQueue = jh :: qt := hq
    rcases processNextFile_cases (settleCore s j w false) with
      ⟨ht, _, _, _⟩ | ⟨ht, _, _⟩ | ⟨j2, q2, ht, hge, _⟩ |
      ⟨j2, q2, ht, _, hav, _⟩ | ⟨j2, q2, w2, av2, ht, hge, hav, he⟩
    · rw [hqc] at ht; exact absurd ht (by simp)
    · rw [hqc] at ht; exact absurd ht (by simp)
    · exfalso
      have hM : (settleCore s j w false).maxWorkers = s.maxWorkers := rfl
      have hA : (settleCore s j w false).activeWorkers = s.activeWorkers - 1 := rfl
      rw [hM, hA, hinv.1, hinv.2.1] at hge
      have h3 := hinv.2.2
      omega
    · have hV : (settleCore s j w false).availableWorkers
          = s.availableWorkers ++ [w] := rfl
      rw [hV] at hav
      simp at hav
    · rw [hqc] at ht
      obtain ⟨hj2, hqq2⟩ : jh = j2 ∧ qt = q2 := by simpa using ht
      show (settleFinish (processNextFile (settleCore s j w false))).started
          = s.started ++ [jh.key]
        ∧ (settleFinish (processNextFile (settleCore s j w false))).inFlight.length
          = s.inFlight.length
      rw [he]
      rw [settleFinish_id _ (by
        intro hcon
        have hx : (settleCore s j w false).activeWorkers + 1 = 0 := hcon.2.1
        have hA : (settleCore s j w false).activeWorkers = s.activeWorkers - 1 := rfl
        rw [hA, hinv.2.1] at hx
        omega)]
      constructor
      · show (settleCore s j w false).started ++ [j2.key] = s.started ++ [jh.key]
        rw [hj2]
        rfl
      · show ((settleCore s j w false).inFlight ++ [(j2, w2)]).length = s.inFlight.length
        rw [List.length_append]
        show (s.inFlight.erase (j, w)).length + _ = _
        rw [hlen]
        simp only [List.length_cons, List.length_nil]
        omega

/-! ### Theorem for C1 (batch resolution lifecycle) -/

/-- C1: over every run of the pool, a batch resolution event is only ever
emitted at an instant when the job queue is empty and the active-worker count
is zero (the ghost snapshot in the event records that instant); the batch
settlement accounting shows every started batch resolves or stop-rejects
exactly once (the open batch being the only outstanding one); when
processAllQueued is called with no stored promise, an empty queue and an idle
pool, it resolves immediately with the empty result set; and a failing job's
settlement emits its slotCompleted error event and its individual promise
rejection, after which — whenever jobs remain queued on a stop-free run — the
next queued job is started and the in-flight count is restored, so the
failure does not stop the pool from draining the queue. -/
theorem C1_batch_resolution (m : Nat) :
    (∀ cmds : List PCmd, GoodEvents (poolRun m cmds).events) ∧
    (∀ cmds : List PCmd, CountEq (poolRun m cmds)) ∧
    (∀ s : Pool, s.promiseSet = false → s.fileQueue = [] → s.activeWorkers = 0 →
      (processAllQueued s).events
        = s.events ++ [PEv.batchStarted, PEv.batchResolved 0 0 0]) ∧
    (∀ (cmds : List PCmd) (j : Job) (w : Nat), NoStop cmds →
      (j, w) ∈ (poolRun m cmds).inFlight →
      (∃ rest, (settleRun (poolRun m cmds) j w false).events
          = (poolRun m cmds).events
            ++ [PEv.workerComplete w j.key true, PEv.jobRejected j.key] ++ rest) ∧
      (∀ (jh : Job) (qt : List Job), (poolRun m cmds).fileQueue = jh :: qt →
        (settleRun (poolRun m cmds) j w false).started
            = (poolRun m cmds).started ++ [jh.key] ∧
        (settleRun (poolRun m cmds) j w false).inFlight.length
            = (poolRun m cmds).inFlight.length)) := by
  refine ⟨?_, ?_, ?_, ?_⟩
  · intro cmds
    exact foldl_poolStep_pred (fun t => GoodEvents t.events) cmds
      (fun t c _ ht => poolStep_good t c ht) (poolInit m)
      (by intro e he n ql x heq; simp [poolInit] at he)
  · intro cmds
    exact (foldl_poolStep_pred BatchInv cmds
      (fun t c _ ht => poolStep_batchInv t c ht) (poolInit m)
      ⟨fun _ => rfl, rfl⟩).2
  · intro s hp hq ha
    unfold processAllQueued
    rw [if_neg (by simp [hp])]
    have h1 : paqStartWorkers (paqBegin s) = paqBegin s := by
      unfold paqStartWorkers
      have hq2 : (paqBegin s).fileQueue = [] := hq
      rw [hq2]
      simp
    rw [h1]
    have h2 : paqFinishCheck (paqBegin s) = finishAllTasks (paqBegin s) := by
      unfold paqFinishCheck
      rw [if_pos ⟨hq, ha⟩]
    rw [h2]
    rcases finishAllTasks_cases (paqBegin s) with ⟨hbo, he⟩ | ⟨hbo, he⟩
    · rw [he]
      show (paqBegin s).events
          ++ [PEv.batchResolved (paqBegin s).resultsCount
              (paqBegin s).fileQueue.length (paqBegin s).activeWorkers]
        = s.events ++ [PEv.batchStarted, PEv.batchResolved 0 0 0]
      have e1 : (paqBegin s).events = s.events ++ [PEv.batchStarted] := rfl
      have e2 : (paqBegin s).resultsCount = 0 := rfl
      have e3 : (paqBegin s).fileQueue.length = 0 := by
        show s.fileQueue.length = 0
        rw [hq]; rfl
      have e4 : (paqBegin s).activeWorkers = 0 := ha
      rw [e1, e2, e3, e4]
      simp
    · exact absurd hbo (by simp [paqBegin])
  · intro cmds j w hns hmem
    exact settleRun_failure_isolation m (poolRun m cmds) j w hmem
      (poolRun_poolInv m cmds hns)

/-- Witness for C1: the immediate empty resolution on a fresh 3-slot pool,
and the failure-isolation conclusion on the concrete 4-jobs-into-3-slots
state, where job 0 fails and queued job 3 is then started. -/
theorem C1_batch_resolution_witness :
    (processAllQueued (poolInit 3)).events
      = (poolInit 3).events ++ [PEv.batchStarted, PEv.batchResolved 0 0 0] ∧
    (settleRun (poolRun 3 [.addFiles [0, 1, 2, 3], .processAllQueued])
        ⟨0, true⟩ 0 false).started
      = (poolRun 3 [.addFiles [0, 1, 2, 3], .processAllQueued]).started ++ [3] ∧
    (settleRun (poolRun 3 [.addFiles [0, 1, 2, 3], .processAllQueued])
        ⟨0, true⟩ 0 false).inFlight.length
      = (poolRun 3 [.addFiles [0, 1, 2, 3], .processAllQueued]).inFlight.length := by
  refine ⟨(C1_batch_resolution 3).2.2.1 (poolInit 3) rfl rfl rfl, ?_, ?_⟩
  · exact (((C1_batch_resolution 3).2.2.2 [.addFiles [0, 1, 2, 3], .processAllQueued]
      ⟨0, true⟩ 0 (by decide) (by decide)).2 ⟨3, true⟩ [] (by decide)).1
  · exact (((C1_batch_resolution 3).2.2.2 [.addFiles [0, 1, 2, 3], .processAllQueued]
      ⟨0, true⟩ 0 (by decide) (by decide)).2 ⟨3, true⟩ [] (by decide)).2

/-- C7 counterexample: a store failure that is not NoSuchKey — here a network
error — is converted by getIndexFile into the empty default document and the
GET route answers 200, instead of being surfaced to the caller as the claim
requires. -/
theorem C7_counterexample :
    getIndexFile (fun _ => none) (.errOther "NetworkingError") = emptyIndexDoc ∧
    getRoute (fun _ => none) (.errOther "NetworkingError") = (200, emptyIndexDoc) :=
  ⟨rfl, rfl⟩

/-- C7 (amended): a read of the missing index document returns the default
empty document {version 1, files {}}, but this empty-default treatment is not
limited to the not-found case: every failure mode of the read — any other
store error, a falsy body, and unparseable content — is likewise caught,
logged and converted to the same default, and GET always answers 200.  No
read error is surfaced to the caller. -/
theorem C7_index_read_defaults (parse : String → Option IndexDoc) :
    getIndexFile parse .errNoSuchKey = emptyIndexDoc ∧
    (∀ name, getIndexFile parse (.errOther name) = emptyIndexDoc) ∧
    getIndexFile parse (.ok none) = emptyIndexDoc ∧
    (∀ s, parse s = none → getIndexFile parse (.ok (some s)) = emptyIndexDoc) ∧
    (∀ s doc, parse s = some doc → getIndexFile parse (.ok (some s)) = doc) ∧
    (∀ r, (getRoute parse r).1 = 200) := by
  refine ⟨rfl, fun name => rfl, rfl, ?_, ?_, fun r => rfl⟩
  · intro s hs
    simp [getIndexFile, s3GetBody, parseBody, hs, Bind.bind, Except.bind]
  · intro s doc hs
    simp [getIndexFile, s3GetBody, parseBody, hs, Bind.bind, Except.bind]

/-- Witness for C7_index_read_defaults with a concrete one-document parse
function. -/
theorem C7_index_read_defaults_witness :
    getIndexFile (fun s => if s = "good" then some ⟨2, []⟩ else none) (.ok (some "bad"))
      = emptyIndexDoc ∧
    getIndexFile (fun s => if s = "good" then some ⟨2, []⟩ else none) (.ok (some "good"))
      = ⟨2, []⟩ :=
  ⟨(C7_index_read_defaults _).2.2.2.1 "bad" (by decide),
   (C7_index_read_defaults _).2.2.2.2.1 "good" ⟨2, []⟩ (by decide)⟩

/-! ### Shared lemmas on JavaScript objects -/

theorem objGet_objSet_self (o : JsObj) (k : String) (v : JsVal) :
    objGet (objSet o k v) k = some v := by
  induction o with
  | nil => simp [objSet, objGet]
  | cons kv rest ih =>
    obtain ⟨k0, v0⟩ := kv
    by_cases h : k0 = k
    · simp [objSet, objGet, h]
    · simpa [objSet, objGet, h] using ih

theorem objGet_objSet_ne (o : JsObj) (k k2 : String) (v : JsVal) (h : k ≠ k2) :
    objGet (objSet o k v) k2 = objGet o k2 := by
  induction o with
  | nil => simp [objSet, objGet, h]
  | cons kv rest ih =>
    obtain ⟨k0, v0⟩ := kv
    by_cases h0 : k0 = k
    · subst h0
      simp [objSet, objGet, h, Ne.symm h]
    · by_cases h2 : k0 = k2 <;>
        simp [objSet, objGet, h0, h2, ih, Ne.symm h]

theorem objGet_eq_none_of_not_mem (o : JsObj) (k : String) (h : k ∉ objKeys o) :
    objGet o k = none := by
  induction o with
  | nil => simp [objGet]
  | cons kv rest ih =>
    obtain ⟨k0, v0⟩ := kv
    simp only [objKeys, List.mem_cons, not_or] at h
    simp [objGet, Ne.symm h.1, ih h.2]

theorem mem_objKeys_of_objGet_eq_some (o : JsObj) (k : String) (v : JsVal)
    (h : objGet o k = some v) : k ∈ objKeys o := by
  induction o with
  | nil => simp [objGet] at h
  | cons kv rest ih =>
    obtain ⟨k0, v0⟩ := kv
    by_cases h0 : k0 = k
    · simp [objKeys, h0.symm]
    · simp only [objGet, beq_iff_eq, if_neg h0] at h
      simp only [objKeys, List.mem_cons]
      exact Or.inr (ih h)

theorem objKeys_objSet_of_mem (o : JsObj) (k : String) (v : JsVal) (h : k ∈ objKeys o) :
    objKeys (objSet o k v) = objKeys o := by
  induction o with
  | nil => simp [objKeys] at h
  | cons kv rest ih =>
    obtain ⟨k0, v0⟩ := kv
    by_cases h0 : k0 = k
    · simp [objSet, objKeys, h0]
    · have hr : k ∈ objKeys rest := by
        simp only [objKeys, List.mem_cons] at h
        rcases h with h | h
        · exact absurd h.symm h0
        · exact h
      simp [objSet, objKeys, h0, ih hr]

theorem mem_objKeys_objSet (o : JsObj) (k x : String) (v : JsVal) :
    x ∈ objKeys (objSet o k v) ↔ x = k ∨ x ∈ objKeys o := by
  induction o with
  | nil => simp [objSet, objKeys]
  | cons kv rest ih =>
    obtain ⟨k0, v0⟩ := kv
    by_cases h0 : k0 = k
    · subst h0
      simp only [objSet, beq_iff_eq, if_pos rfl, objKeys, List.mem_cons]
      tauto
    · simp only [objSet, beq_iff_eq, if_neg h0, objKeys, List.mem_cons, ih]
      tauto

theorem objKeys_objSet_nodup (o : JsObj) (k : String) (v : JsVal)
    (h : (objKeys o).Nodup) : (objKeys (objSet o k v)).Nodup := by
  induction o with
  | nil => simp [objSet, objKeys]
  | cons kv rest ih =>
    obtain ⟨k0, v0⟩ := kv
    simp only [objKeys, List.nodup_cons] at h
    by_cases h0 : k0 = k
    · subst h0
      simpa [objSet, objKeys, List.nodup_cons] using h
    · have hrec := ih h.2
      simp only [objSet, beq_iff_eq, if_neg h0, objKeys, List.nodup_cons]
      refine ⟨?_, hrec⟩
      intro hmem
      rcases (mem_objKeys_objSet rest k k0 v).mp hmem with h1 | h1
      · exact h0 h1
      · exact h.1 h1

theorem objKeys_dateFix (conv : JsVal → JsVal) (key : String) (o : JsObj) :
    objKeys (dateFix conv key o) = objKeys o := by
  unfold dateFix
  cases hv : objGet o key with
  | none => rfl
  | some v =>
    by_cases ht : (v.truthy && !v.isString) = true
    · simp [ht, objKeys_objSet_of_mem _ _ _ (mem_objKeys_of_objGet_eq_some _ _ _ hv)]
    · simp [ht]

theorem objKeys_storableOf (conv : JsVal → JsVal) (m : JsObj) :
    objKeys (storableOf conv m) = objKeys m := by
  simp [storableOf, objKeys_dateFix]

theorem mergeDefined_objGet (update : JsObj) (existing : JsObj) (k : String)
    (hnd : (objKeys update).Nodup) :
    objGet (mergeDefined existing update) k =
      match objGet update k with
      | some v => if v = .undef then objGet existing k else some v
      | none => objGet existing k := by
  induction update generalizing existing with
  | nil => simp [mergeDefined, objGet]
  | cons kv rest ih =>
    obtain ⟨k0, v0⟩ := kv
    have hpair := List.nodup_cons.mp (by simpa [objKeys] using hnd)
    have hk0 : k0 ∉ objKeys rest := by simpa [objKeys] using hpair.1
    have hnd' : (objKeys rest).Nodup := by simpa [objKeys] using hpair.2
    have hfold : mergeDefined existing ((k0, v0) :: rest)
        = mergeDefined (mergeStep existing (k0, v0)) rest := by
      simp [mergeDefined]
    rw [hfold, ih (mergeStep existing (k0, v0)) hnd']
    by_cases hk : k0 = k
    · subst hk
      rw [objGet_eq_none_of_not_mem rest k0 hk0]
      by_cases hv : v0 = .undef <;>
        simp [mergeStep, hv, objGet, objGet_objSet_self]
    · have hcons : objGet ((k0, v0) :: rest) k = objGet rest k := by
        simp [objGet, hk]
      rw [hcons]
      by_cases hv : v0 = .undef
      · simp [mergeStep, hv]
      · cases hr : objGet rest k with
        | none => simp [mergeStep, hv, objGet_objSet_ne _ _ _ _ hk]
        | some w =>
          by_cases hw : w = .undef <;>
            simp [mergeStep, hv, hw, objGet_objSet_ne _ _ _ _ hk]

theorem spreadMerge_objGet (b : JsObj) (a : JsObj) (k : String)
    (hnd : (objKeys b).Nodup) :
    objGet (spreadMerge a b) k =
      match objGet b k with
      | some v => some v
      | none => objGet a k := by
  induction b generalizing a with
  | nil => simp [spreadMerge, objGet]
  | cons kv rest ih =>
    obtain ⟨k0, v0⟩ := kv
    have hpair := List.nodup_cons.mp (by simpa [objKeys] using hnd)
    have hk0 : k0 ∉ objKeys rest := by simpa [objKeys] using hpair.1
    have hnd' : (objKeys rest).Nodup := by simpa [objKeys] using hpair.2
    have hfold : spreadMerge a ((k0, v0) :: rest) = spreadMerge (objSet a k0 v0) rest := by
      simp [spreadMerge]
    rw [hfold, ih (objSet a k0 v0) hnd']
    by_cases hk : k0 = k
    · subst hk
      rw [objGet_eq_none_of_not_mem rest k0 hk0]
      simp [objGet, objGet_objSet_self]
    · have hcons : objGet ((k0, v0) :: rest) k = objGet rest k := by
        simp [objGet, hk]
      rw [hcons]
      cases objGet rest k with
      | none => simp [objGet_objSet_ne _ _ _ _ hk]
      | some w => simp

theorem cleanFold_objGet (convB : JsVal → JsVal) (fm : JsObj) (acc : JsObj) (k : String)
    (hnd : (objKeys fm).Nodup) :
    objGet (fm.foldl (cleanStep convB) acc) k =
      match objGet fm k with
      | some v =>
        if v = .undef then objGet acc k
        else if (k == "exifDate" || k == "s3LastModified") && v.truthy then some (convB v)
        else some v
      | none => objGet acc k := by
  induction fm generalizing acc with
  | nil => simp [objGet]
  | cons kv rest ih =>
    obtain ⟨k0, v0⟩ := kv
    have hpair := List.nodup_cons.mp (by simpa [objKeys] using hnd)
    have hk0 : k0 ∉ objKeys rest := by simpa [objKeys] using hpair.1
    have hnd' : (objKeys rest).Nodup := by simpa [objKeys] using hpair.2
    have hfold : ((k0, v0) :: rest).foldl (cleanStep convB) acc
        = rest.foldl (cleanStep convB) (cleanStep convB acc (k0, v0)) := by
      simp
    rw [hfold, ih (cleanStep convB acc (k0, v0)) hnd']
    by_cases hk : k0 = k
    · subst hk
      rw [objGet_eq_none_of_not_mem rest k0 hk0]
      by_cases hv : v0 = .undef
      · simp [cleanStep, hv, objGet]
      · by_cases hd : ((k0 == "exifDate" || k0 == "s3LastModified") && v0.truthy) = true <;>
          simp [cleanStep, hv, hd, objGet, objGet_objSet_self]
    · have hcons : objGet ((k0, v0) :: rest) k = objGet rest k := by
        simp [objGet, hk]
      rw [hcons]
      by_cases hv : v0 = .undef
      · simp [cleanStep, hv]
      · by_cases hd : ((k0 == "exifDate" || k0 == "s3LastModified") && v0.truthy) = true
        · cases hr : objGet rest k with
          | none => simp [cleanStep, hv, hd, objGet_objSet_ne _ _ _ _ hk]
          | some w =>
            by_cases hw : w = .undef <;>
              simp [cleanStep, hv, hd, hw, objGet_objSet_ne _ _ _ _ hk]
        · cases hr : objGet rest k with
          | none => simp [cleanStep, hv, hd, objGet_objSet_ne _ _ _ _ hk]
          | some w =>
            by_cases hw : w = .undef <;>
              simp [cleanStep, hv, hd, hw, objGet_objSet_ne _ _ _ _ hk]

theorem cleanMetadataOf_objGet (convB : JsVal → JsVal) (fm : JsObj) (k : String)
    (hnd : (objKeys fm).Nodup) :
    objGet (cleanMetadataOf convB fm) k =
      match objGet fm k with
      | some v =>
        if v = .undef then none
        else if (k == "exifDate" || k == "s3LastModified") && v.truthy then some (convB v)
        else some v
      | none => none := by
  have h := cleanFold_objGet convB fm [] k hnd
  simp only [cleanMetadataOf]
  rw [h]
  cases objGet fm k with
  | none => simp [objGet]
  | some v => by_cases hv : v = .undef <;> simp [hv, objGet]

theorem cleanFold_keys_nodup (convB : JsVal → JsVal) (fm : JsObj) (acc : JsObj)
    (hacc : (objKeys acc).Nodup) :
    (objKeys (fm.foldl (cleanStep convB) acc)).Nodup := by
  induction fm generalizing acc with
  | nil => simpa
  | cons kv rest ih =>
    have hstep : (objKeys (cleanStep convB acc kv)).Nodup := by
      unfold cleanStep
      split
      · exact hacc
      · split
        · exact objKeys_objSet_nodup _ _ _ hacc
        · exact objKeys_objSet_nodup _ _ _ hacc
    simpa using ih (cleanStep convB acc kv) hstep

theorem cleanWithThumb_keys_nodup (convB : JsVal → JsVal) (existing fm : JsObj) :
    (objKeys (cleanWithThumb convB existing fm)).Nodup := by
  have h : (objKeys (cleanMetadataOf convB fm)).Nodup :=
    cleanFold_keys_nodup convB fm [] (by simp [objKeys])
  unfold cleanWithThumb cleanThumbFix
  split
  · exact objKeys_objSet_nodup _ _ _ h
  · exact h

/-! ### Theorems for C4 (field-level merge rules) -/

/-- C4 counterexample: a batch update carrying the defined value null for
thumbnailDataUrl over an existing record with a truthy thumbnail does not
overwrite the field — the existing thumbnail is preserved, where the claim
requires every defined incoming field to overwrite. -/
theorem C4_counterexample :
    objGet (batchMergeOne id [("thumbnailDataUrl", .str "old")]
        [("thumbnailDataUrl", .null)]) "thumbnailDataUrl" = some (.str "old") ∧
    objGet (batchMergeOne id [("thumbnailDataUrl", .str "old")]
        [("thumbnailDataUrl", .null)]) "thumbnailDataUrl" ≠ some .null := by
  exact ⟨rfl, by decide⟩

/-- C4 (amended): for the single-key path, the stored record after the write
equals the previous record overwritten field-by-field with exactly the
defined fields of the (date-normalized) incoming update — absent or undefined
incoming fields keep their stored values and fields are never deleted.  The
batch path obeys the same rule for every field except thumbnailDataUrl: there
an incoming defined-but-falsy value (null or the empty string) does not
overwrite an existing truthy thumbnail, which is preserved instead; a truthy
incoming thumbnail does overwrite.  The {title X} over
{title old, tags [t1]} scenario yields {title X, tags [t1]}. -/
theorem C4_field_merge :
    (∀ (conv : JsVal → JsVal) (existing metadata : JsObj) (k : String),
      (objKeys metadata).Nodup →
      objGet (performUpdateMerge conv existing metadata) k =
        match objGet (storableOf conv metadata) k with
        | some v => if v = .undef then objGet existing k else some v
        | none => objGet existing k) ∧
    (∀ (conv : JsVal → JsVal) (existing metadata : JsObj) (k : String) (v : JsVal),
      (objKeys metadata).Nodup → objGet existing k = some v →
      ∃ w, objGet (performUpdateMerge conv existing metadata) k = some w) ∧
    (∀ (convB : JsVal → JsVal) (existing fm : JsObj) (k : String),
      (objKeys fm).Nodup → k ≠ "thumbnailDataUrl" →
      objGet (batchMergeOne convB existing fm) k =
        match objGet fm k with
        | some v =>
          if v = .undef then objGet existing k
          else if (k == "exifDate" || k == "s3LastModified") && v.truthy then some (convB v)
          else some v
        | none => objGet existing k) ∧
    (∀ (convB : JsVal → JsVal) (existing fm : JsObj) (tv ev : JsVal),
      (objKeys fm).Nodup →
      objGet fm "thumbnailDataUrl" = some tv → tv ≠ .undef → tv.truthy = false →
      objGet existing "thumbnailDataUrl" = some ev → ev.truthy = true →
      objGet (batchMergeOne convB existing fm) "thumbnailDataUrl" = some ev) ∧
    (∀ (convB : JsVal → JsVal) (existing fm : JsObj) (tv : JsVal),
      (objKeys fm).Nodup →
      objGet fm "thumbnailDataUrl" = some tv → tv.truthy = true →
      objGet (batchMergeOne convB existing fm) "thumbnailDataUrl" = some tv) ∧
    (batchMergeOne id [("title", .str "old"), ("tags", .strList ["t1"])]
        [("title", .str "X")]
      = [("title", .str "X"), ("tags", .strList ["t1"])]) := by
  have hthumbdate : (("thumbnailDataUrl" == "exifDate")
      || ("thumbnailDataUrl" == "s3LastModified")) = false := by decide
  refine ⟨?_, ?_, ?_, ?_, ?_, by decide⟩
  · intro conv existing metadata k hnd
    have hnd2 : (objKeys (storableOf conv metadata)).Nodup := by
      rw [objKeys_storableOf]; exact hnd
    exact mergeDefined_objGet (storableOf conv metadata) existing k hnd2
  · intro conv existing metadata k v hnd hex
    have hnd2 : (objKeys (storableOf conv metadata)).Nodup := by
      rw [objKeys_storableOf]; exact hnd
    unfold performUpdateMerge
    rw [mergeDefined_objGet (storableOf conv metadata) existing k hnd2]
    cases objGet (storableOf conv metadata) k with
    | none => exact ⟨v, hex⟩
    | some w =>
      by_cases hw : w = .undef
      · exact ⟨v, by simp [hw, hex]⟩
      · exact ⟨w, by simp [hw]⟩
  · intro convB existing fm k hnd hk
    have hclean := cleanMetadataOf_objGet convB fm k hnd
    have hget : objGet (cleanWithThumb convB existing fm) k
        = objGet (cleanMetadataOf convB fm) k := by
      unfold cleanWithThumb cleanThumbFix
      split
      · exact objGet_objSet_ne _ _ _ _ (fun h => hk h.symm)
      · rfl
    rw [batchMergeOne,
      spreadMerge_objGet _ _ _ (cleanWithThumb_keys_nodup convB existing fm), hget, hclean]
    cases objGet fm k with
    | none => rfl
    | some v =>
      by_cases hv : v = .undef
      · simp [hv]
      · by_cases hd : ((k == "exifDate" || k == "s3LastModified") && v.truthy) = true <;>
          simp [hv, hd]
  · intro convB existing fm tv ev hnd htv htvd htvf hev hevt
    have hclean := cleanMetadataOf_objGet convB fm "thumbnailDataUrl" hnd
    rw [htv] at hclean
    have hcleanv : objGet (cleanMetadataOf convB fm) "thumbnailDataUrl" = some tv := by
      rw [hclean]
      simp [htvd, hthumbdate, htvf]
    have hthumb : cleanWithThumb convB existing fm
        = objSet (cleanMetadataOf convB fm) "thumbnailDataUrl" ev := by
      unfold cleanWithThumb cleanThumbFix
      rw [hcleanv, hev]
      simp [htvf, hevt]
    rw [batchMergeOne,
      spreadMerge_objGet _ _ _ (cleanWithThumb_keys_nodup convB existing fm), hthumb,
      objGet_objSet_self]
  · intro convB existing fm tv hnd htv htvt
    have hclean := cleanMetadataOf_objGet convB fm "thumbnailDataUrl" hnd
    rw [htv] at hclean
    have htvd : tv ≠ .undef := by
      intro h; rw [h] at htvt; simp [JsVal.truthy] at htvt
    have hcleanv : objGet (cleanMetadataOf convB fm) "thumbnailDataUrl" = some tv := by
      rw [hclean]
      simp [htvd, hthumbdate]
    have hthumb : cleanWithThumb convB existing fm = cleanMetadataOf convB fm := by
      unfold cleanWithThumb cleanThumbFix
      rw [hcleanv]
      simp [htvt]
    rw [batchMergeOne,
      spreadMerge_objGet _ _ _ (cleanWithThumb_keys_nodup convB existing fm), hthumb,
      hcleanv]

/-- Witness for C4_field_merge: the scenario applied through the single-key
path, field by field. -/
theorem C4_field_merge_witness :
    objGet (performUpdateMerge id [("title", .str "old"), ("tags", .strList ["t1"])]
        [("title", .str "X")]) "tags" = some (.strList ["t1"]) ∧
    objGet (performUpdateMerge id [("title", .str "old"), ("tags", .strList ["t1"])]
        [("title", .str "X")]) "title" = some (.str "X") := by
  constructor
  · rw [C4_field_merge.1 id [("title", .str "old"), ("tags", .strList ["t1"])]
      [("title", .str "X")] "tags" (by decide)]
    decide
  · rw [C4_field_merge.1 id [("title", .str "old"), ("tags", .strList ["t1"])]
      [("title", .str "X")] "title" (by decide)]
    decide

/-! ### Lemmas and theorems for C5 (single-flight FIFO write queue) -/

theorem appliedOf_append (a b : List QEv) :
    appliedOf (a ++ b) = appliedOf a ++ appliedOf b := by
  simp [appliedOf]

theorem readSettleTrace_append (a b : List Nat) :
    readSettleTrace (a ++ b) = readSettleTrace a ++ readSettleTrace b := by
  induction a with
  | nil => simp [readSettleTrace]
  | cons w ws ih => simp [readSettleTrace, ih]

theorem idxKick_inv (s : IdxQueueState) (h : IdxInv s) : IdxInv (idxKick s) := by
  obtain ⟨h1, h2, h3⟩ := h
  by_cases hb : (s.indexUpdateInProgress || s.updateQueue.isEmpty) = true
  · have hid : idxKick s = s := by unfold idxKick; rw [if_pos hb]
    rw [hid]; exact ⟨h1, h2, h3⟩
  · have hp : s.indexUpdateInProgress = false := by
      cases hx : s.indexUpdateInProgress
      · rfl
      · exact absurd (by simp [hx]) hb
    have hfl : s.inFlight = [] := by
      rw [hp] at h1
      simpa using h1
    cases hql : s.updateQueue with
    | nil => exact absurd (by simp [hql]) hb
    | cons w rest =>
      have hred : idxKick s = { s with
          indexUpdateInProgress := true
          updateQueue := rest
          inFlight := s.inFlight ++ [w]
          log := s.log ++ [.readStart w] } := by
        unfold idxKick
        rw [if_neg hb, hql]
      rw [hred]
      refine ⟨?_, ?_, ?_⟩
      · simp [hfl]
      · show appliedOf (s.log ++ [QEv.readStart w]) ++ (s.inFlight ++ [w]) ++ rest
            = s.submitted
        rw [appliedOf_append, hfl]
        have happ : appliedOf [QEv.readStart w] = [] := by simp [appliedOf]
        rw [happ]
        rw [hql, hfl] at h2
        simpa using h2
      · show s.log ++ [QEv.readStart w]
            = readSettleTrace (appliedOf (s.log ++ [QEv.readStart w]))
              ++ (s.inFlight ++ [w]).map QEv.readStart
        rw [appliedOf_append, hfl]
        have happ : appliedOf [QEv.readStart w] = [] := by simp [appliedOf]
        rw [happ, List.append_nil]
        rw [hfl] at h3
        conv_lhs => rw [h3]
        simp

theorem idxSettle_inv (s : IdxQueueState) (h : IdxInv s) : IdxInv (idxSettle s) := by
  obtain ⟨h1, h2, h3⟩ := h
  cases hfl : s.inFlight with
  | nil =>
    have hid : idxSettle s = s := by unfold idxSettle; rw [hfl]
    rw [hid]; exact ⟨h1, h2, h3⟩
  | cons w rest =>
    have hp : s.indexUpdateInProgress = true := by
      cases hx : s.indexUpdateInProgress
      · rw [hfl, hx] at h1; simp at h1
      · rfl
    have hr : rest = [] := by
      rw [hfl, hp] at h1
      simpa using h1
    subst hr
    have hred : idxSettle s = idxKick { s with
        inFlight := ([] : List Nat)
        indexUpdateInProgress := false
        log := s.log ++ [.settled w] } := by
      unfold idxSettle; rw [hfl]
    rw [hred]
    apply idxKick_inv
    refine ⟨by simp, ?_, ?_⟩
    · show appliedOf (s.log ++ [QEv.settled w]) ++ [] ++ s.updateQueue = s.submitted
      rw [appliedOf_append]
      have happ : appliedOf [QEv.settled w] = [w] := by simp [appliedOf]
      rw [happ]
      rw [hfl] at h2
      simpa using h2
    · show s.log ++ [QEv.settled w]
          = readSettleTrace (appliedOf (s.log ++ [QEv.settled w]))
            ++ ([] : List Nat).map QEv.readStart
      rw [appliedOf_append]
      have happ : appliedOf [QEv.settled w] = [w] := by simp [appliedOf]
      rw [happ, readSettleTrace_append]
      rw [hfl] at h3
      conv_lhs => rw [h3]
      simp [readSettleTrace]

theorem idxStep_inv (s : IdxQueueState) (c : IdxCmd) (h : IdxInv s) :
    IdxInv (idxStep s c) := by
  cases c with
  | push w =>
    obtain ⟨h1, h2, h3⟩ := h
    refine ⟨h1, ?_, ?_⟩
    · show appliedOf s.log ++ s.inFlight ++ (s.updateQueue ++ [w]) = s.submitted ++ [w]
      rw [← h2]; simp
    · exact h3
  | kick => exact idxKick_inv s h
  | settle => exact idxSettle_inv s h

theorem idxRun_inv (cmds : List IdxCmd) : IdxInv (idxRun cmds) := by
  suffices h : ∀ s, IdxInv s → IdxInv (cmds.foldl idxStep s) by
    exact h idxQueueInit ⟨by simp [idxQueueInit], by simp [idxQueueInit, appliedOf],
      by simp [idxQueueInit, appliedOf, readSettleTrace]⟩
  induction cmds with
  | nil => intro s hs; simpa using hs
  | cons c rest ih =>
    intro s hs
    exact ih (idxStep s c) (idxStep_inv s c hs)

theorem procStep_routeInv (s : ProcState) (c : ProcCmd) (h : IdxInv s.route) :
    IdxInv (procStep s c).route := by
  cases c with
  | push w => exact idxStep_inv s.route (.push w) h
  | kick => exact idxStep_inv s.route .kick h
  | settle => exact idxStep_inv s.route .settle h
  | batchBegin b => exact h
  | batchEnd => exact h

theorem procRun_routeInv (cmds : List ProcCmd) : IdxInv (procRun cmds).route := by
  suffices h : ∀ s, IdxInv s.route → IdxInv ((cmds.foldl procStep s)).route by
    refine h procInit ⟨by simp [procInit, idxQueueInit],
      by simp [procInit, idxQueueInit, appliedOf],
      by simp [procInit, idxQueueInit, appliedOf, readSettleTrace]⟩
  induction cmds with
  | nil => intro s hs; simpa using hs
  | cons c rest ih => intro s hs; exact ih (procStep s c) (procStep_routeInv s c hs)

/-- C5 counterexample: write 1 is submitted through the single-key route and
its queued read-merge-write cycle starts (mutex taken, cycle in flight); a
batch-update request then begins its own read-merge-write cycle on the same
index document while the queued cycle is still in flight — the batch step
leaves the route's mutex and queue untouched — so two read-merge-write
cycles are in flight at once in one server process, refuting the claim that
at most one is in flight at any time and that additional write requests wait
for the in-flight write. -/
theorem C5_counterexample :
    (procRun [.push 1, .kick, .batchBegin 2]).route.indexUpdateInProgress = true ∧
    (procRun [.push 1, .kick, .batchBegin 2]).route.inFlight = [1] ∧
    (procRun [.push 1, .kick, .batchBegin 2]).batchInFlight = [2] ∧
    cyclesInFlight (procRun [.push 1, .kick, .batchBegin 2]) = 2 ∧
    (procRun [.push 1, .kick, .batchBegin 2]).route
      = (procRun [.push 1, .kick]).route := by
  decide

/-- C5 (amended): within one server process, the writes submitted through the
single-key metadata route are single-flight and FIFO — along every process
run, at most one queued read-merge-write cycle is in flight at any time, the
queued writes applied so far, the one in flight, and the queued ones are
exactly the submissions in order, and the route's trace alternates strictly
read w1, settled w1, read w2, settled w2, ... — but the guarantee is
per-route, not process-wide: a batch-update handler begins its own
read-merge-write cycle on the same index document without consulting or
modifying the queue's mutex state, whatever that state is. -/
theorem C5_route_single_flight_fifo (cmds : List ProcCmd) :
    (procRun cmds).route.inFlight.length ≤ 1 ∧
    appliedOf (procRun cmds).route.log ++ (procRun cmds).route.inFlight
      ++ (procRun cmds).route.updateQueue = (procRun cmds).route.submitted ∧
    (procRun cmds).route.log = readSettleTrace (appliedOf (procRun cmds).route.log)
      ++ (procRun cmds).route.inFlight.map QEv.readStart ∧
    (∀ (s : ProcState) (b : Nat),
      (procStep s (ProcCmd.batchBegin b)).route = s.route ∧
      (procStep s (ProcCmd.batchBegin b)).batchInFlight = s.batchInFlight ++ [b]) := by
  obtain ⟨h1, h2, h3⟩ := procRun_routeInv cmds
  refine ⟨?_, h2, h3, ?_⟩
  · rw [h1]
    split <;> omega
  · intro s b
    exact ⟨rfl, rfl⟩

/-- Witness for C5 on a concrete schedule: writes 1 and 2 go through the
queue in submission order even though a batch cycle (7) begins and ends in
between, and the batch begin step leaves the route state — mutex taken,
write 1 in flight — exactly as it was. -/
theorem C5_route_single_flight_fifo_witness :
    (procRun [ProcCmd.push 1, ProcCmd.kick, ProcCmd.batchBegin 7, ProcCmd.push 2,
        ProcCmd.kick, ProcCmd.settle, ProcCmd.batchEnd, ProcCmd.settle]).route.log
      = readSettleTrace [1, 2] ∧
    (procStep (procRun [ProcCmd.push 1, ProcCmd.kick]) (ProcCmd.batchBegin 7)).route
      = (procRun [ProcCmd.push 1, ProcCmd.kick]).route := by
  constructor
  · have h3 := (C5_route_single_flight_fifo [ProcCmd.push 1, ProcCmd.kick,
      ProcCmd.batchBegin 7, ProcCmd.push 2, ProcCmd.kick, ProcCmd.settle,
      ProcCmd.batchEnd, ProcCmd.settle]).2.2.1
    rw [h3]
    decide
  · exact ((C5_route_single_flight_fifo []).2.2.2
      (procRun [ProcCmd.push 1, ProcCmd.kick]) 7).1

/-! ### Theorems for C6 (pending-change sync lifecycle) -/

/-- C6 counterexample: change 2 is merged into the pending buffer while a sync
whose snapshot contains only change 1 is in flight; when that sync succeeds,
the whole buffer is cleared, so change 2 is dropped from the buffer although
no confirmed successful remote write ever included it. -/
theorem C6_counterexample :
    (syncRun [.update 1, .syncStart, .update 2]).pending = [1, 2] ∧
    (syncRun [.update 1, .syncStart, .update 2]).snapshot = [1] ∧
    (syncRun [.update 1, .syncStart, .update 2, .syncOk 100]).pending = [] ∧
    (syncRun [.update 1, .syncStart, .update 2, .syncOk 100]).synced = [1] ∧
    2 ∉ (syncRun [.update 1, .syncStart, .update 2, .syncOk 100]).synced := by
  decide

/-- C6 (amended): on a failed sync every pending change remains in the buffer
unchanged, a user-visible sync error is recorded, and a retry is scheduled
30 s out.  On a successful sync the entire pending buffer is cleared at
completion time — including changes merged after the snapshot was taken,
which were not part of the confirmed write — and exactly the snapshot becomes
confirmed.  A sync only starts by snapshotting the current buffer, leaving
the buffer itself intact. -/
theorem C6_sync_lifecycle :
    (∀ (s : SyncState) (now : Nat) (msg : String), s.isSyncing = true →
      (syncFail s now msg).pending = s.pending ∧
      (syncFail s now msg).syncError = some msg ∧
      (syncFail s now msg).nextSyncTime = now + 30000) ∧
    (∀ (s : SyncState) (now : Nat), s.isSyncing = true →
      (syncOk s now).pending = [] ∧
      (syncOk s now).synced = s.synced ++ s.snapshot) ∧
    (∀ s : SyncState, s.isSyncing = false → s.pending ≠ [] →
      (Rawdirt.syncStart s).snapshot = s.pending ∧
      (Rawdirt.syncStart s).isSyncing = true ∧
      (Rawdirt.syncStart s).pending = s.pending) := by
  refine ⟨?_, ?_, ?_⟩
  · intro s now msg hs
    simp [syncFail, hs]
  · intro s now hs
    simp [syncOk, hs]
  · intro s hs hp
    have hne : s.pending.isEmpty = false := by
      cases hql : s.pending
      · exact absurd hql hp
      · simp
    simp [Rawdirt.syncStart, hs, hne]

/-- Witness for C6_sync_lifecycle at a concrete mid-flight state. -/
theorem C6_sync_lifecycle_witness :
    (syncFail ⟨[1, 2], true, [1], none, 0, 0, []⟩ 500 "Failed to sync").pending = [1, 2] ∧
    (syncFail ⟨[1, 2], true, [1], none, 0, 0, []⟩ 500 "Failed to sync").syncError
      = some "Failed to sync" ∧
    (syncFail ⟨[1, 2], true, [1], none, 0, 0, []⟩ 500 "Failed to sync").nextSyncTime
      = 500 + 30000 :=
  C6_sync_lifecycle.1 ⟨[1, 2], true, [1], none, 0, 0, []⟩ 500 "Failed to sync" rfl

/-! ### Theorems for C8 (scan cache) -/

/-- C8: when the scan loop throws, the error propagates to the caller and the
scan cache — entry list, total, has-scanned flag — is exactly the cache from
before the scan; the cache is replaced only when the scan completes fully, in
which case all three fields are replaced consistently and independently of the
previous cache contents. -/
theorem C8_scan_cache_atomicity :
    (∀ pages cache e, scanGo pages [] 0 = .error e →
      scanEntireBucket pages cache = (.error e, cache)) ∧
    (∀ pages cache files, scanGo pages [] 0 = .ok files →
      scanEntireBucket pages cache =
        (.ok (), { cachedRawFiles := files, cachedTotalRawFiles := files.length,
                   hasScannedBucket := true })) ∧
    (∀ e rest acc n, scanGo (.error e :: rest) acc n = .error e) ∧
    (∀ pages c1 c2 u, (scanEntireBucket pages c1).1 = .ok u →
      (scanEntireBucket pages c1).2 = (scanEntireBucket pages c2).2) := by
  refine ⟨?_, ?_, fun e rest acc n => rfl, ?_⟩
  · intro pages cache e h
    simp [scanEntireBucket, h]
  · intro pages cache files h
    simp [scanEntireBucket, h]
  · intro pages c1 c2 u h
    unfold scanEntireBucket at h ⊢
    cases hg : scanGo pages [] 0 with
    | error e => rw [hg] at h; exact Except.noConfusion h
    | ok files => rfl

/-- Witness for C8: a two-page scan whose second send fails leaves a concrete
cache untouched and propagates the error. -/
theorem C8_scan_cache_atomicity_witness :
    scanEntireBucket
        [.ok ⟨["a.rw2", "b.txt"], true, true⟩, .error "TimeoutError"]
        ⟨["old.rw2"], 1, true⟩
      = (.error "TimeoutError", ⟨["old.rw2"], 1, true⟩) :=
  C8_scan_cache_atomicity.1
    [.ok ⟨["a.rw2", "b.txt"], true, true⟩, .error "TimeoutError"]
    ⟨["old.rw2"], 1, true⟩ "TimeoutError" rfl

/-! ### C3: stopProcessing and the settlement of abandoned in-flight jobs -/

theorem settleCore_new_event_key (j : Job) (w : Nat) (ok : Bool) (e : PEv)
    (hm : e ∈ [PEv.workerComplete w j.key (!ok),
          if ok then PEv.jobResolved j.key else PEv.jobRejected j.key]
        ++ (if j.viaAdd then [PEv.completionNotified j.key (!ok)] else [])) :
    evJobKey e = some j.key := by
  rcases List.mem_append.mp hm with hm | hm
  · rcases List.mem_cons.mp hm with he | he
    · subst he; rfl
    · have he2 : e = (if ok then PEv.jobResolved j.key else PEv.jobRejected j.key) := by
        simpa using he
      subst he2
      cases ok <;> rfl
  · cases hv : j.viaAdd
    · rw [hv] at hm; simp at hm
    · rw [hv] at hm
      have he2 : e = PEv.completionNotified j.key (!ok) := by simpa using hm
      subst he2
      rfl

theorem finishAllTasks_startedInv (s : Pool) (h : StartedInv s) :
    StartedInv (finishAllTasks s) := by
  rcases finishAllTasks_cases s with ⟨_, he⟩ | ⟨_, he⟩ <;> rw [he]
  · constructor
    · show ∀ e ∈ s.events
          ++ [PEv.batchResolved s.resultsCount s.fileQueue.length s.activeWorkers],
        ∀ k, evJobKey e = some k → k ∈ s.started
      intro e hme k hk
      rcases List.mem_append.mp hme with hm | hm
      · exact h.1 e hm k hk
      · have he2 : e = PEv.batchResolved s.resultsCount s.fileQueue.length s.activeWorkers := by
          simpa using hm
        subst he2
        simp [evJobKey] at hk
    · exact h.2
  · exact ⟨h.1, h.2⟩

theorem processNextFile_startedInv (s : Pool) (h : StartedInv s) :
    StartedInv (processNextFile s) := by
  rcases processNextFile_cases s with ⟨_, _, _, he⟩ | ⟨_, _, he⟩ |
    ⟨j, q, _, _, he⟩ | ⟨j, q, _, _, _, he⟩ | ⟨j, q, w, avail, _, _, _, he⟩ <;> rw [he]
  · exact finishAllTasks_startedInv s h
  · exact h
  · exact h
  · exact h
  · constructor
    · show ∀ e ∈ s.events, ∀ k, evJobKey e = some k → k ∈ s.started ++ [j.key]
      intro e hme k hk
      exact List.mem_append_left _ (h.1 e hme k hk)
    · show ∀ p ∈ s.inFlight ++ [(j, w)], p.1.key ∈ s.started ++ [j.key]
      intro p hp
      rcases List.mem_append.mp hp with hm | hm
      · exact List.mem_append_left _ (h.2 p hm)
      · have hp2 : p = (j, w) := by simpa using hm
        subst hp2
        exact List.mem_append_right _ (by simp)

theorem settleCore_startedInv (s : Pool) (j : Job) (w : Nat) (ok : Bool)
    (hmem : (j, w) ∈ s.inFlight) (h : StartedInv s) :
    StartedInv (settleCore s j w ok) := by
  have hjk : j.key ∈ s.started := h.2 (j, w) hmem
  constructor
  · intro e hme k hk
    rw [settleCore_events_eq, List.append_assoc] at hme
    rcases List.mem_append.mp hme with hm | hm
    · exact h.1 e hm k hk
    · have hkey := settleCore_new_event_key j w ok e hm
      rw [hkey] at hk
      have hk2 : j.key = k := Option.some.inj hk
      show k ∈ s.started
      rw [← hk2]
      exact hjk
  · intro p hp
    exact h.2 p (List.mem_of_mem_erase hp)

theorem settleFinish_startedInv (s : Pool) (h : StartedInv s) :
    StartedInv (settleFinish s) := by
  unfold settleFinish
  split
  · exact finishAllTasks_startedInv s h
  · exact h

theorem poolStep_startedInv (s : Pool) (c : PCmd) (h : StartedInv s) :
    StartedInv (poolStep s c) := by
  cases c with
  | processFile k =>
    show StartedInv (processNextFile { s with fileQueue := s.fileQueue ++ [⟨k, false⟩] })
    exact processNextFile_startedInv _ ⟨h.1, h.2⟩
  | addFiles ks =>
    simp only [poolStep]
    unfold addFiles
    split
    · exact h
    · exact ⟨h.1, h.2⟩
  | processAllQueued =>
    simp only [poolStep]
    unfold processAllQueued
    split
    · exact h
    · show StartedInv (markPromiseSet (paqFinishCheck (paqStartWorkers (paqBegin s))))
      have h1 : StartedInv (paqBegin s) := by
        constructor
        · show ∀ e ∈ s.events ++ [PEv.batchStarted], ∀ k, evJobKey e = some k → k ∈ s.started
          intro e hme k hk
          rcases List.mem_append.mp hme with hm | hm
          · exact h.1 e hm k hk
          · have he2 : e = PEv.batchStarted := by simpa using hm
            subst he2
            simp [evJobKey] at hk
        · exact h.2
      have h2 : StartedInv (paqStartWorkers (paqBegin s)) :=
        paqStartWorkers_pred StartedInv (fun t ht => processNextFile_startedInv t ht) _ h1
      have h3 : StartedInv (paqFinishCheck (paqStartWorkers (paqBegin s))) := by
        unfold paqFinishCheck
        split
        · exact finishAllTasks_startedInv _ h2
        · exact h2
      exact ⟨h3.1, h3.2⟩
  | stop =>
    simp only [poolStep]
    unfold stopProcessing
    split
    · constructor
      · show ∀ e ∈ s.events ++ [PEv.batchRejectedStop],
          ∀ k, evJobKey e = some k → k ∈ s.started
        intro e hme k hk
        rcases List.mem_append.mp hme with hm | hm
        · exact h.1 e hm k hk
        · have he2 : e = PEv.batchRejectedStop := by simpa using hm
          subst he2
          simp [evJobKey] at hk
      · exact h.2
    · exact ⟨h.1, h.2⟩
  | settle j w ok =>
    simp only [poolStep]
    split
    · rename_i hmem
      show StartedInv (settleFinish (processNextFile (settleCore s j w ok)))
      exact settleFinish_startedInv _ (processNextFile_startedInv _
        (settleCore_startedInv s j w ok hmem h))
    · exact h

theorem poolRun_startedInv (m : Nat) (cmds : List PCmd) :
    StartedInv (poolRun m cmds) := by
  refine foldl_poolStep_pred StartedInv cmds
    (fun s c _ h => poolStep_startedInv s c h) (poolInit m) ?_
  constructor
  · intro e hme k hk
    simp [poolInit] at hme
  · intro p hp
    simp [poolInit] at hp

theorem stopProcessing_fields (s : Pool) :
    (stopProcessing s).fileQueue = [] ∧
    (stopProcessing s).activeWorkers = 0 ∧
    (stopProcessing s).availableWorkers = List.range s.maxWorkers ∧
    (stopProcessing s).fileToWorker = [] ∧
    (stopProcessing s).activeTasks = [] ∧
    (stopProcessing s).isProcessing = false ∧
    (stopProcessing s).inFlight = s.inFlight ∧
    (stopProcessing s).batchOpen = false ∧
    (stopProcessing s).maxWorkers = s.maxWorkers := by
  unfold stopProcessing
  split
  · exact ⟨rfl, rfl, rfl, rfl, rfl, rfl, rfl, rfl, rfl⟩
  · rename_i hbo
    refine ⟨rfl, rfl, rfl, rfl, rfl, rfl, rfl, ?_, rfl⟩
    show s.batchOpen = false
    simpa using hbo

theorem stopProcessing_events_open (s : Pool) (hbo : s.batchOpen = true) :
    (stopProcessing s).events = s.events ++ [PEv.batchRejectedStop] := by
  unfold stopProcessing
  rw [if_pos hbo]

theorem stopProcessing_events_closed (s : Pool) (hbo : s.batchOpen = false) :
    (stopProcessing s).events = s.events := by
  unfold stopProcessing
  rw [if_neg (by simp [hbo])]

theorem settleRun_after_stop (s : Pool) (j : Job) (w : Nat) (ok : Bool) :
    settleRun (stopProcessing s) j w ok = settleCore (stopProcessing s) j w ok := by
  obtain ⟨f1, f2, f3, f4, f5, f6, f7, f8, f9⟩ := stopProcessing_fields s
  have hqc : (settleCore (stopProcessing s) j w ok).fileQueue = [] := f1
  have hpc : (settleCore (stopProcessing s) j w ok).isProcessing = false := f6
  have hpnf : processNextFile (settleCore (stopProcessing s) j w ok)
      = settleCore (stopProcessing s) j w ok := by
    rcases processNextFile_cases (settleCore (stopProcessing s) j w ok) with
      ⟨_, hp, _, _⟩ | ⟨_, _, he⟩ | ⟨j2, q2, ht, _, he⟩ | ⟨j2, q2, ht, _, _, he⟩ |
      ⟨j2, q2, w2, av2, ht, _, _, he⟩
    · rw [hpc] at hp
      exact absurd hp (by simp)
    · exact he
    · rw [hqc] at ht
      exact absurd ht (by simp)
    · rw [hqc] at ht
      exact absurd ht (by simp)
    · rw [hqc] at ht
      exact absurd ht (by simp)
  unfold settleRun
  rw [hpnf]
  apply settleFinish_id
  intro hcon
  have hx := hcon.1
  rw [hpc] at hx
  exact Bool.noConfusion hx

/-- C3 counterexample scenario: with one slot, a job is started, then
stopProcessing runs (active count 0, the single worker id available again,
the job still in flight), and when the abandoned job later settles the
continuation decrements the active count to -1, appends a duplicate copy of
the worker id, and emits the abandoned job's completion events — refuting
the claim that such a settlement must not mutate the now-idle slot
bookkeeping. -/
theorem C3_counterexample :
    (poolRun 1 [.processFile 0, .stop]).activeWorkers = 0 ∧
    (poolRun 1 [.processFile 0, .stop]).availableWorkers = [0] ∧
    (poolRun 1 [.processFile 0, .stop]).inFlight = [(⟨0, false⟩, 0)] ∧
    (poolRun 1 [.processFile 0, .stop, .settle ⟨0, false⟩ 0 true]).activeWorkers = -1 ∧
    (poolRun 1 [.processFile 0, .stop, .settle ⟨0, false⟩ 0 true]).availableWorkers
      = [0, 0] ∧
    (poolRun 1 [.processFile 0, .stop, .settle ⟨0, false⟩ 0 true]).events
      = [PEv.workerComplete 0 0 false, PEv.jobResolved 0] := by
  decide

/-- C3: stopProcessing voids the pending queue and forces the slot
bookkeeping to idle (zero active count, availableWorkers refilled with all
worker ids, file-to-worker map and active tasks cleared, not processing),
leaving in-flight jobs untouched; it rejects the outstanding batch promise
exactly when one is open; along every run no job-level event names a job
that was not actually started (so queued-but-never-started jobs get no
completion events); but a later settlement of an abandoned in-flight job
does mutate the idle bookkeeping: it runs the plain continuation, driving
the active count to -1 and appending a duplicate worker id, and emits the
abandoned job's worker-completion event. -/
theorem C3_stop_semantics (m : Nat) :
    (∀ s : Pool,
      (stopProcessing s).fileQueue = [] ∧
      (stopProcessing s).activeWorkers = 0 ∧
      (stopProcessing s).availableWorkers = List.range s.maxWorkers ∧
      (stopProcessing s).fileToWorker = [] ∧
      (stopProcessing s).activeTasks = [] ∧
      (stopProcessing s).isProcessing = false ∧
      (stopProcessing s).inFlight = s.inFlight) ∧
    (∀ s : Pool, s.batchOpen = true →
      (stopProcessing s).events = s.events ++ [PEv.batchRejectedStop]) ∧
    (∀ s : Pool, s.batchOpen = false → (stopProcessing s).events = s.events) ∧
    (∀ cmds : List PCmd, ∀ e ∈ (poolRun m cmds).events, ∀ k,
      evJobKey e = some k → k ∈ (poolRun m cmds).started) ∧
    (∀ (s : Pool) (j : Job) (w : Nat) (ok : Bool), (j, w) ∈ s.inFlight →
      poolStep (stopProcessing s) (PCmd.settle j w ok)
        = settleCore (stopProcessing s) j w ok ∧
      (poolStep (stopProcessing s) (PCmd.settle j w ok)).activeWorkers = -1 ∧
      (poolStep (stopProcessing s) (PCmd.settle j w ok)).availableWorkers
        = List.range s.maxWorkers ++ [w] ∧
      ∃ tail, (poolStep (stopProcessing s) (PCmd.settle j w ok)).events
        = (stopProcessing s).events ++ PEv.workerComplete w j.key (!ok) :: tail) := by
  refine ⟨?_, ?_, ?_, ?_, ?_⟩
  · intro s
    obtain ⟨f1, f2, f3, f4, f5, f6, f7, _, _⟩ := stopProcessing_fields s
    exact ⟨f1, f2, f3, f4, f5, f6, f7⟩
  · exact stopProcessing_events_open
  · exact stopProcessing_events_closed
  · exact fun cmds => (poolRun_startedInv m cmds).1
  · intro s j w ok hmem
    obtain ⟨f1, f2, f3, f4, f5, f6, f7, f8, f9⟩ := stopProcessing_fields s
    have hmem2 : (j, w) ∈ (stopProcessing s).inFlight := by rw [f7]; exact hmem
    have hstep : poolStep (stopProcessing s) (PCmd.settle j w ok)
        = settleCore (stopProcessing s) j w ok := by
      simp only [poolStep]
      rw [if_pos hmem2]
      exact settleRun_after_stop s j w ok
    refine ⟨hstep, ?_, ?_, ?_⟩
    · rw [hstep]
      show (stopProcessing s).activeWorkers - 1 = -1
      rw [f2]
      decide
    · rw [hstep]
      show (stopProcessing s).availableWorkers ++ [w] = List.range s.maxWorkers ++ [w]
      rw [f3]
    · refine ⟨(if ok then PEv.jobResolved j.key else PEv.jobRejected j.key)
        :: (if j.viaAdd then [PEv.completionNotified j.key (!ok)] else []), ?_⟩
      rw [hstep, settleCore_events_eq]
      simp [List.append_assoc]

/-- Concrete instantiation of the stop semantics: a one-slot pool with an
open batch gets the rejection event; with no open batch the trace is
unchanged; the only job key appearing in a run's events was started; and
settling the abandoned job after stop yields active count -1 and the
duplicated available-worker list [0, 0]. -/
theorem C3_stop_semantics_witness :
    (stopProcessing (poolRun 1 [PCmd.addFiles [0, 1], PCmd.processAllQueued])).events
      = (poolRun 1 [PCmd.addFiles [0, 1], PCmd.processAllQueued]).events
        ++ [PEv.batchRejectedStop] ∧
    (stopProcessing (poolRun 1 [PCmd.processFile 0])).events
      = (poolRun 1 [PCmd.processFile 0]).events ∧
    (0 : Nat) ∈ (poolRun 1 [PCmd.processFile 0, PCmd.settle ⟨0, false⟩ 0 true]).started ∧
    (poolStep (stopProcessing (poolRun 1 [PCmd.processFile 0]))
        (PCmd.settle ⟨0, false⟩ 0 true)).activeWorkers = -1 ∧
    (poolStep (stopProcessing (poolRun 1 [PCmd.processFile 0]))
        (PCmd.settle ⟨0, false⟩ 0 true)).availableWorkers = [0, 0] := by
  refine ⟨(C3_stop_semantics 1).2.1 _ (by decide),
          (C3_stop_semantics 1).2.2.1 _ (by decide),
          (C3_stop_semantics 1).2.2.2.1 [PCmd.processFile 0, PCmd.settle ⟨0, false⟩ 0 true]
            (PEv.jobResolved 0) (by decide) 0 rfl,
          ((C3_stop_semantics 1).2.2.2.2 (poolRun 1 [PCmd.processFile 0])
            ⟨0, false⟩ 0 true (by decide)).2.1,
          (((C3_stop_semantics 1).2.2.2.2 (poolRun 1 [PCmd.processFile 0])
            ⟨0, false⟩ 0 true (by decide)).2.2.1).trans (by decide)⟩

end Rawdirt
